import Mathlib

set_option maxHeartbeats 1000000

/-!
Verification development for the WikiParser repository (src/main.py), a
bounded-depth Wikipedia crawler.  Python strings are modelled as lists of
characters (`Str`), Python sets as duplicate-free insertion into lists
(membership is what every property below consumes), and the sqlite store as a
pure table value.  The network and the error behaviour of the environment are
modelled by oracles passed to the traversal: a fetch oracle mapping the
percent-encoded URL that `urllib.request.urlopen` receives to a result, and a
persistence-failure oracle saying whether sqlite raises while the frame of a
given URL persists its links.  Page content is modelled as its stream of start
tags, which is what `html.parser.HTMLParser` delivers to `handle_starttag`;
the `if not html` emptiness test of `get_links_from_page` corresponds to the
empty stream.  `urllib.parse.unquote` is modelled byte-level (multi-byte UTF-8
recombination of decoded bytes is not modelled; no property below depends on
it), and `urllib.parse.urljoin` / `urlsplit` follow the CPython 3.11
algorithm (the WHATWG control-character sanitisation, the
`ValueError("Invalid IPv6 URL")` raise on a netloc with unbalanced square
brackets, and the `_check_bracketed_host` validation of balanced bracketed
hosts against `ipaddress` IPv4/IPv6 parsing and the IPvFuture shape,
modelled as `Except` values), with the rarely used `;params` component kept
inside the path.  The one `urlsplit` raise left out is `_checknetloc`'s
NFKC-normalisation check, which concerns only non-ASCII netlocs and needs
`unicodedata`; every statement below that asserts a successful parse
restricts the netloc to ASCII characters, on which `_checknetloc` returns
without raising, so the model is exact there.
-/

abbrev Str := List Char

/-- Insert into a list with set semantics (Python `set.add`). -/
def sInsert (x : Str) (xs : List Str) : List Str := if x ∈ xs then xs else x :: xs

/-! ## Link extractor: class WikiParser (src/main.py lines 12-32) -/

/-- One start tag as delivered by `HTMLParser.handle_starttag`: tag name and
attribute list.  The source annotates attributes as `List[tuple[str, str]]`. -/
structure StartTag where
  tag : Str
  attrs : List (Str × Str)
deriving DecidableEq

/-- `WikiParser.handle_starttag`: on an `a` tag, add every `href` attribute
value that starts with `/wiki` and contains no `:` to the link set. -/
def handle_starttag (links : List Str) (tag : Str) (attrs : List (Str × Str)) : List Str :=
  if tag = "a".data then
    attrs.foldl
      (fun ls attr =>
        if attr.1 = "href".data ∧ "/wiki".data.isPrefixOf attr.2 ∧ ':' ∉ attr.2 then
          sInsert attr.2 ls
        else ls)
      links
  else links

/-- Feeding a tag stream to a fresh `WikiParser` and reading `self.links`. -/
def feedTags (tags : List StartTag) : List Str :=
  tags.foldl (fun ls t => handle_starttag ls t.tag t.attrs) []

/-! ## Link store: save_to_db (src/main.py lines 52-69) -/

/-- The `Urls` table: rows of (surrogate id, url) plus the next AUTOINCREMENT
id.  sqlite assigns ids from 1. -/
structure Table where
  rows : List (Nat × Str)
  nextId : Nat
deriving DecidableEq

/-- The store file: `none` while no `Urls` table exists. -/
def Db := Option Table
deriving instance DecidableEq for Db

def emptyTable : Table := ⟨[], 1⟩

/-- The set of URL values held by the store. -/
def dbUrls (db : Db) : List Str :=
  match db with
  | none => []
  | some t => t.rows.map Prod.snd

def tableExists (db : Db) : Bool :=
  match db with
  | none => false
  | some _ => true

/-- `INSERT OR IGNORE INTO Urls (url) VALUES (?)`. -/
def insertRow (t : Table) (u : Str) : Table :=
  if u ∈ t.rows.map Prod.snd then t else ⟨t.rows ++ [(t.nextId, u)], t.nextId + 1⟩

/-- `save_to_db`: `CREATE TABLE IF NOT EXISTS Urls (...)` then one
`INSERT OR IGNORE` per url of the set (modelled as the iteration list). -/
def save_to_db (db : Db) (urls : List Str) : Db :=
  some (urls.foldl insertRow (match db with | none => emptyTable | some t => t))

/-- The table `save_to_db` folds over. -/
def dbTable (db : Db) : Table :=
  match db with
  | none => emptyTable
  | some t => t

/-! ## urllib.parse: unquote, quote, urlsplit, urlunsplit, urljoin -/

/-- Value of an ASCII hex digit. -/
def hexVal (c : Char) : Option Nat :=
  if '0' ≤ c ∧ c ≤ '9' then some (c.toNat - 48)
  else if 'a' ≤ c ∧ c ≤ 'f' then some (c.toNat - 87)
  else if 'A' ≤ c ∧ c ≤ 'F' then some (c.toNat - 55)
  else none

/-- `urllib.parse.unquote`: decode `%XX` escapes; malformed escapes keep the
`%` literally.  Decoded bytes are kept as single characters. -/
def unquote : Str → Str
  | [] => []
  | '%' :: a :: b :: rest =>
    match hexVal a, hexVal b with
    | some x, some y => Char.ofNat (16 * x + y) :: unquote rest
    | _, _ => '%' :: unquote (a :: b :: rest)
  | c :: rest => c :: unquote rest

/-- Characters `urllib.parse.quote` never encodes (`_ALWAYS_SAFE`). -/
def isAlwaysSafe (c : Char) : Bool :=
  ('A' ≤ c ∧ c ≤ 'Z') ∨ ('a' ≤ c ∧ c ≤ 'z') ∨ ('0' ≤ c ∧ c ≤ '9') ∨ c ∈ ['_', '.', '-', '~']

/-- Uppercase hex digit of a value below 16. -/
def hexUp (n : Nat) : Char := if n < 10 then Char.ofNat (48 + n) else Char.ofNat (55 + n)

/-- UTF-8 encoding of a scalar value. -/
def utf8Bytes (n : Nat) : List Nat :=
  if n < 128 then [n]
  else if n < 2048 then [192 + n / 64, 128 + n % 64]
  else if n < 65536 then [224 + n / 4096, 128 + (n / 64) % 64, 128 + n % 64]
  else [240 + n / 262144, 128 + (n / 4096) % 64, 128 + (n / 64) % 64, 128 + n % 64]

/-- `urllib.parse.quote(url, safe=":/?&=")` as applied by `get_page`. -/
def quoteUrl (s : Str) : Str :=
  s.foldr
    (fun c acc =>
      (if isAlwaysSafe c ∨ c ∈ [':', '/', '?', '&', '='] then [c]
       else (utf8Bytes c.toNat).foldr
         (fun b acc2 => '%' :: hexUp (b / 16) :: hexUp (b % 16) :: acc2) []) ++ acc)
    []

/-- Index of the first character satisfying `p` (Python `str.find`). -/
def firstIdx (p : Char → Bool) : Str → Option Nat
  | [] => none
  | c :: cs => if p c then some 0 else (firstIdx p cs).map (· + 1)

/-- Split at the first occurrence of `c`; if absent, the whole string is the
first component (matches Python `str.split(c, 1)` followed by defaulting the
missing second part to the empty string). -/
def splitAtChar (c : Char) : Str → Str × Str
  | [] => ([], [])
  | x :: xs =>
    if x = c then ([], xs)
    else
      let r := splitAtChar c xs
      (x :: r.1, r.2)

/-- The characters of `urllib.parse.scheme_chars`. -/
def isSchemeChar (c : Char) : Bool :=
  ('A' ≤ c ∧ c ≤ 'Z') ∨ ('a' ≤ c ∧ c ≤ 'z') ∨ ('0' ≤ c ∧ c ≤ '9') ∨ c ∈ ['+', '-', '.']

def isAsciiAlpha (c : Char) : Bool :=
  ('A' ≤ c ∧ c ≤ 'Z') ∨ ('a' ≤ c ∧ c ≤ 'z')

def lowerStr (s : Str) : Str := s.map Char.toLower

/-- Python `str.split(sep)` for a one-character separator. -/
def splitOnChar (c : Char) : Str → List Str
  | [] => [[]]
  | x :: xs =>
    if x = c then [] :: splitOnChar c xs
    else
      match splitOnChar c xs with
      | [] => [[x]]
      | a :: as => (x :: a) :: as

/-- Python `sep.join` for a one-character separator. -/
def joinChar (c : Char) : List Str → Str
  | [] => []
  | [x] => x
  | x :: xs => x ++ c :: joinChar c xs

/-- ASCII decimal digit (`str.isascii() and str.isdigit()` per character). -/
def isAsciiDigit (c : Char) : Bool := '0' ≤ c ∧ c ≤ '9'

/-- Numeric value of an ASCII digit string. -/
def digitsVal (s : Str) : Nat := s.foldl (fun n c => 10 * n + (c.toNat - 48)) 0

/-- `ipaddress._BaseV4._parse_octet`: a dotted-quad component must be 1-3
ASCII digits, without a leading zero unless it is exactly `0`, and at most
255. -/
def octetOk (o : Str) : Bool :=
  o ≠ [] ∧ o.all isAsciiDigit ∧ o.length ≤ 3 ∧
    (o = ['0'] ∨ o.headD ' ' ≠ '0') ∧ digitsVal o ≤ 255

/-- `ipaddress.IPv4Address` on a string: rejects `/`, then
`_ip_int_from_string` demands exactly four valid octets separated by
dots. -/
def ipv4Ok (s : Str) : Bool :=
  ¬ '/' ∈ s ∧ s ≠ [] ∧
    (let octs := splitOnChar '.' s
     octs.length = 4 ∧ octs.all octetOk)

/-- `ipaddress._BaseV6._parse_hextet`: one to four hex digits (the empty
string fails its `int(hextet_str, 16)`). -/
def hextetOk (h : Str) : Bool :=
  h ≠ [] ∧ h.all (fun c => (hexVal c).isSome) ∧ h.length ≤ 4

/-- The colon-part analysis of `ipaddress._BaseV6._ip_int_from_string`,
after the optional IPv4 suffix has been converted: at most 9 parts, at most
one empty interior part (the `::`), endpoint emptiness only as part of a
leading or trailing `::`, at most 7 retained parts around a `::` (else
exactly 8 parts), every retained part a valid hextet. -/
def ipv6PartsOk (parts : List Str) : Bool :=
  parts.length ≤ 9 ∧
    (let interior := (parts.drop 1).dropLast
     let empties := interior.countP (fun q => decide (q = []))
     if empties = 0 then
       parts.length = 8 ∧ parts.headD [' '] ≠ [] ∧ parts.getLastD [' '] ≠ [] ∧
         parts.all hextetOk
     else if empties = 1 then
       let skip := 1 + interior.findIdx (fun q => decide (q = []))
       let hi := if parts.headD [' '] = [] then skip - 1 else skip
       let lo := if parts.getLastD [' '] = [] then parts.length - skip - 2
         else parts.length - skip - 1
       (parts.headD [' '] = [] → skip = 1) ∧
         (parts.getLastD [' '] = [] → parts.length = skip + 2) ∧
         hi + lo ≤ 7 ∧
         (parts.take hi).all hextetOk ∧
         (parts.drop (parts.length - lo)).all hextetOk
     else false)

/-- `ipaddress._BaseV6._ip_int_from_string` as a validity predicate: at
least three colon-separated parts; an IPv4-styled last part must be a valid
IPv4 address and is converted to two hextets (the model tracks validity
only, and `'%x'` of a 16-bit value is always a valid hextet, so placeholder
hextets leave validity unchanged). -/
def ipv6Ok (s : Str) : Bool :=
  s ≠ [] ∧
    (let parts0 := splitOnChar ':' s
     3 ≤ parts0.length ∧
       (let lastPart := parts0.getLastD []
        (¬ '.' ∈ lastPart ∨ ipv4Ok lastPart) ∧
          ipv6PartsOk
            (if '.' ∈ lastPart then parts0.dropLast ++ [['0'], ['0']] else parts0)))

/-- `ipaddress.IPv6Address` on a string: rejects `/`, splits an optional
`%scope` (which must be non-empty and contain no further `%`), then
validates the address part. -/
def ipv6AddrOk (s : Str) : Bool :=
  ¬ '/' ∈ s ∧
    (if '%' ∈ s then
       (splitAtChar '%' s).2 ≠ [] ∧ ¬ '%' ∈ (splitAtChar '%' s).2 ∧
         ipv6Ok (splitAtChar '%' s).1
     else ipv6Ok s)

/-- The `\Av[a-fA-F0-9]+\..+\Z` IPvFuture pattern of
`_check_bracketed_host`: `v`, one or more hex digits, a dot, then at least
one further character, with no newline after the dot (Python `.` does not
match a newline). -/
def ipvFutureOk (s : Str) : Bool :=
  match s with
  | 'v' :: t =>
    let rest := t.dropWhile (fun c => (hexVal c).isSome)
    t.takeWhile (fun c => (hexVal c).isSome) ≠ [] ∧ rest.take 1 = ['.'] ∧
      rest.drop 1 ≠ [] ∧ ¬ '\n' ∈ rest.drop 1
  | _ => false

/-- `urllib.parse._check_bracketed_host` as a validity predicate: a
bracketed host starting with `v` must have the IPvFuture shape; any other
is fed to `ipaddress.ip_address`, which must neither fail (not an address
at all) nor yield an IPv4 address (`An IPv4 address cannot be in
brackets`), so it must be a valid IPv6 address. -/
def bracketedHostOk (h : Str) : Bool :=
  if h.take 1 = ['v'] then ipvFutureOk h
  else ¬ ipv4Ok h ∧ ipv6AddrOk h

/-- The text between the first `[` of a netloc and the first `]` after it
(`netloc.partition('[')[2].partition(']')[0]`). -/
def bracketInner (netloc : Str) : Str :=
  ((netloc.dropWhile (fun c => c ≠ '[')).drop 1).takeWhile (fun c => c ≠ ']')

/-- First raise condition of the netloc validation inside `urlsplit`
(CPython 3.11): the netloc holds exactly one of `[`, `]`
(`Invalid IPv6 URL`). -/
def netlocBad1 (netloc : Str) : Bool :=
  ('[' ∈ netloc ∧ ¬ ']' ∈ netloc) ∨ (']' ∈ netloc ∧ ¬ '[' ∈ netloc)

/-- Second raise condition: the netloc holds both brackets and the text
between them fails `_check_bracketed_host`.  The trailing `_checknetloc`
NFKC check applies only to non-ASCII netlocs and is not modelled (see the
module docstring). -/
def netlocBad2 (netloc : Str) : Bool :=
  ('[' ∈ netloc ∧ ']' ∈ netloc) ∧ ¬ bracketedHostOk (bracketInner netloc)

/-- WHATWG sanitisation done by `urlsplit`: strip leading C0 controls and
spaces, then remove every tab, carriage return and newline. -/
def sanitizeUrl (s : Str) : Str :=
  (s.dropWhile (fun c => c.toNat ≤ 32)).filter (fun c => ¬ c ∈ ['\t', '\r', '\n'])

/-- The same sanitisation applied to the default scheme (stripped both ends). -/
def sanitizeScheme (s : Str) : Str :=
  ((((s.dropWhile (fun c => c.toNat ≤ 32)).reverse).dropWhile
      (fun c => c.toNat ≤ 32)).reverse).filter (fun c => ¬ c ∈ ['\t', '\r', '\n'])

structure SplitUrl where
  scheme : Str
  netloc : Str
  path : Str
  query : Str
  frag : Str
deriving DecidableEq

/-- The body of `urlsplit` after sanitisation: scheme detection, netloc
splitting with its bracket validation (`.error` where CPython raises
`ValueError`), fragment and query splitting. -/
def urlsplitRaw (url : Str) (dscheme : Str) : Except String SplitUrl :=
  let sr :=
    match firstIdx (· = ':') url with
    | some i =>
      if 0 < i ∧ isAsciiAlpha (url.headD ' ') ∧ (url.take i).all isSchemeChar then
        (lowerStr (url.take i), url.drop (i + 1))
      else (dscheme, url)
    | none => (dscheme, url)
  let scheme := sr.1
  let rest := sr.2
  if rest.take 2 = ['/', '/'] then
    let netloc := (rest.drop 2).takeWhile (fun c => ¬ c ∈ ['/', '?', '#'])
    let rest2 := (rest.drop 2).dropWhile (fun c => ¬ c ∈ ['/', '?', '#'])
    if netlocBad1 netloc then .error "Invalid IPv6 URL"
    else if netlocBad2 netloc then .error "bracketed host is invalid"
    else
      let fr := splitAtChar '#' rest2
      let pq := splitAtChar '?' fr.1
      .ok ⟨scheme, netloc, pq.1, pq.2, fr.2⟩
  else
    let fr := splitAtChar '#' rest
    let pq := splitAtChar '?' fr.1
    .ok ⟨scheme, [], pq.1, pq.2, fr.2⟩

/-- `urllib.parse.urlsplit(url, scheme0)` with `allow_fragments=True`. -/
def urlsplit (url0 : Str) (scheme0 : Str) : Except String SplitUrl :=
  urlsplitRaw (sanitizeUrl url0) (sanitizeScheme scheme0)

/-- `urllib.parse.urlunsplit`. -/
def urlunsplit (u : SplitUrl) : Str :=
  let url := u.path
  let url :=
    if u.netloc ≠ [] ∨ (url ≠ [] ∧ url.take 2 = ['/', '/']) then
      '/' :: '/' :: u.netloc ++ (if url ≠ [] ∧ url.headD ' ' ≠ '/' then '/' :: url else url)
    else url
  let url := if u.scheme ≠ [] then u.scheme ++ ':' :: url else url
  let url := if u.query ≠ [] then url ++ '?' :: u.query else url
  if u.frag ≠ [] then url ++ '#' :: u.frag else url

def usesRelative : List Str :=
  [[], "ftp".data, "http".data, "gopher".data, "nntp".data, "imap".data, "wais".data,
   "file".data, "https".data, "shttp".data, "mms".data, "prospero".data, "rtsp".data,
   "rtspu".data, "sftp".data, "svn".data, "svn+ssh".data, "ws".data, "wss".data]

def usesNetloc : List Str :=
  [[], "ftp".data, "http".data, "gopher".data, "nntp".data, "telnet".data, "imap".data,
   "wais".data, "file".data, "mms".data, "https".data, "shttp".data, "snews".data,
   "prospero".data, "rtsp".data, "rtspu".data, "rsync".data, "svn".data, "svn+ssh".data,
   "sftp".data, "nfs".data, "git".data, "git+ssh".data, "ws".data, "wss".data,
   "itms-services".data]

/-- The `.`/`..` resolution loop of `urljoin`. -/
def resolveDots (segs : List Str) : Str :=
  let r := segs.foldl
    (fun acc seg =>
      if seg = "..".data then acc.dropLast
      else if seg = ".".data then acc
      else acc ++ [seg])
    ([] : List Str)
  let r := if segs.getLast? = some "..".data ∨ segs.getLast? = some ".".data then r ++ [[]] else r
  let p := joinChar '/' r
  if p = [] then ['/'] else p

/-- The body of `urljoin` after both URLs have parsed: the join logic
itself never raises. -/
def urljoinCore (b r : SplitUrl) (url : Str) : Str :=
  if ¬ (r.scheme = b.scheme ∧ r.scheme ∈ usesRelative) then url
  else if r.scheme ∈ usesNetloc ∧ r.netloc ≠ [] then urlunsplit r
  else
    let netloc := if r.scheme ∈ usesNetloc then b.netloc else r.netloc
    if r.path = [] then
      let q := if r.query = [] then b.query else r.query
      urlunsplit ⟨r.scheme, netloc, b.path, q, r.frag⟩
    else
      let baseParts := splitOnChar '/' b.path
      let baseParts := if baseParts.getLast? ≠ some [] then baseParts.dropLast else baseParts
      let segments :=
        if r.path.take 1 = ['/'] then splitOnChar '/' r.path
        else
          let segs := baseParts ++ splitOnChar '/' r.path
          if segs.length ≤ 2 then segs
          else
            segs.take 1 ++ ((segs.drop 1).dropLast.filter (fun s => s ≠ []))
              ++ segs.drop (segs.length - 1)
      urlunsplit ⟨r.scheme, netloc, resolveDots segments, r.query, r.frag⟩

/-- `urllib.parse.urljoin`: a `ValueError` from either of its two `urlparse`
calls (base first) propagates. -/
def urljoin (base url : Str) : Except String Str :=
  if base = [] then .ok url
  else if url = [] then .ok base
  else
    match urlsplit base [] with
    | .error e => .error e
    | .ok b =>
      match urlsplit url b.scheme with
      | .error e => .error e
      | .ok r => .ok (urljoinCore b r url)

/-- The Resolver of `get_links_from_page` (src/main.py lines 81-84): the body
of the set comprehension, `urljoin(base_url, unquote(link))`. -/
def resolveLink (base link : Str) : Except String Str := urljoin base (unquote link)

/-- Scheme and netloc of a URL string, as `main` reads them via `urlparse`
(`([], [])` when the parse raises). -/
def originOf (s : Str) : Str × Str :=
  match urlsplit s [] with
  | .ok u => (u.scheme, u.netloc)
  | .error _ => ([], [])

/-! ## Fetch adapter: get_page (src/main.py lines 35-49) -/

/-- Outcome of `urllib.request.urlopen` plus body decoding, as an oracle
keyed by the percent-encoded URL.  `ok` carries the page content as its start
tag stream; `raises` is any other exception escaping the `try` of `get_page`
(for example `UnicodeDecodeError` from `.decode("utf-8")`), which its
`except` clauses do not catch. -/
inductive FetchRes where
  | ok (tags : List StartTag)
  | httpError (code : Nat)
  | urlError (reason : String)
  | raises (e : String)
deriving DecidableEq

def FetchRes.isRaises : FetchRes → Bool
  | .raises _ => true
  | _ => false

abbrev FetchOracle := Str → FetchRes

/-- `get_page`: quote the URL, fetch it; on `HTTPError` or `URLError` log and
return empty content; other exceptions propagate. -/
def get_page (fetch : FetchOracle) (url : Str) : Except String (List StartTag) :=
  match fetch (quoteUrl url) with
  | .ok tags => .ok tags
  | .httpError _ => .ok []
  | .urlError _ => .ok []
  | .raises e => .error e

/-! ## get_links_from_page (src/main.py lines 72-84) -/

/-- One link at a time of the set comprehension of `get_links_from_page`:
a `ValueError` from `urljoin` aborts the comprehension and propagates out
of `get_links_from_page`. -/
def resolveAll (base : Str) : List Str → Except String (List Str)
  | [] => .ok []
  | l :: ls =>
    match resolveLink base l with
    | .error e => .error e
    | .ok r =>
      match resolveAll base ls with
      | .error e => .error e
      | .ok acc => .ok (sInsert r acc)

/-- The set comprehension of `get_links_from_page`: resolve every parser link
against the base URL, with set semantics.  Empty content (`if not html`)
yields the empty set without parsing. -/
def resolveLinks (base : Str) (html : List StartTag) : Except String (List Str) :=
  if html = [] then .ok [] else resolveAll base (feedTags html)

def get_links_from_page (fetch : FetchOracle) (url base : Str) :
    Except String (List Str) :=
  match get_page fetch url with
  | .error e => .error e
  | .ok html => resolveLinks base html

/-- The Discovered Link Set of a page whose fetch does not raise (and the
empty list otherwise). -/
def pageLinks (fetch : FetchOracle) (base url : Str) : List Str :=
  match get_links_from_page fetch url base with
  | .ok ls => ls
  | .error _ => []

/-! ## Traversal engine: recursive_url_scrap (src/main.py lines 87-104) -/

/-- Whether sqlite raises while the frame of the given URL persists its
links (`save_to_db` errors are environmental: disk, locking). -/
abbrev PersistOracle := Str → Option String

/-- Observable events of a traversal, with the store contents at the event:
`visit` marks a frame passing its guards and fetching (after `visited.add`),
`save` the persistence of a discovered link set, `fail` a caught-and-logged
exception (the log line carries URL and depth). -/
inductive Ev where
  | visit (url : Str) (depth : Nat) (db : Db)
  | save (links : List Str) (db : Db)
  | fail (url : Str) (depth : Nat) (err : String)
deriving DecidableEq

/-- The `for link in links: await recursive_url_scrap(...)` loop, abstracted
over the recursive call at the next depth.  An exception from a child frame
would abort the loop and propagate (to be caught by the caller's `except`). -/
def scrapChildren (step : Str → List Str → Db → Except String (List Str × Db × List Ev)) :
    List Str → List Str → Db → Except String (List Str × Db × List Ev)
  | [], v, db => .ok (v, db, [])
  | l :: ls, v, db =>
    match step l v db with
    | .error e => .error e
    | .ok (v1, db1, tr1) =>
      match scrapChildren step ls v1 db1 with
      | .error e => .error e
      | .ok (v2, db2, tr2) => .ok (v2, db2, tr1 ++ tr2)

/-- `recursive_url_scrap(base_url, current_url, db_name, depth, visited)`.
Terminal on `depth == 0` or a visited URL; otherwise the URL is added to
`visited`, and extraction, persistence and the recursion into the discovered
links run inside `try/except Exception`, whose handler only logs.  The result
carries the visited set, the store, and the event trace. -/
def recursive_url_scrap (fetch : FetchOracle) (perr : PersistOracle) (base : Str) :
    Nat → Str → List Str → Db → Except String (List Str × Db × List Ev)
  | 0, _, v, db => .ok (v, db, [])
  | d + 1, u, v, db =>
    if u ∈ v then .ok (v, db, [])
    else
      let v' := sInsert u v
      match get_links_from_page fetch u base with
      | .error e => .ok (v', db, [.visit u (d + 1) db, .fail u (d + 1) e])
      | .ok links =>
        match perr u with
        | some e => .ok (v', db, [.visit u (d + 1) db, .fail u (d + 1) e])
        | none =>
          let db1 := save_to_db db links
          match scrapChildren (recursive_url_scrap fetch perr base d) links v' db1 with
          | .ok (v2, db2, tr2) =>
            .ok (v2, db2, .visit u (d + 1) db :: .save links db1 :: tr2)
          | .error e => .ok (v', db, [.visit u (d + 1) db, .fail u (d + 1) e])

/-! ## main (src/main.py lines 118-146) -/

/-- Python `\s` on `str` patterns. -/
def isPySpace (c : Char) : Bool :=
  c ∈ [' ', '\t', '\n', '\r', '\x0b', '\x0c'] ∨
  c.toNat ∈ [28, 29, 30, 31, 133, 160, 5760] ∨
  (8192 ≤ c.toNat ∧ c.toNat ≤ 8202) ∨
  c.toNat ∈ [8232, 8233, 8239, 8287, 12288]

/-- The `[^\s]*$` tail of the seed pattern: non-whitespace characters, then
the end of the string or a single final newline (Python `$`). -/
def restOk : Str → Bool
  | [] => true
  | ['\n'] => true
  | c :: cs => ¬ isPySpace c ∧ restOk cs

/-- Strip a leading `https?://`. -/
def stripHttp (s : Str) : Option Str :=
  match s with
  | 'h' :: 't' :: 't' :: 'p' :: rest =>
    (match (match rest with | 's' :: r => r | r => r) with
     | ':' :: '/' :: '/' :: r => some r
     | _ => none)
  | _ => none

/-- `re.match(r"^https?://[^\s/$.?#].[^\s]*$", url)` of `main`. -/
def seedValid (s : Str) : Bool :=
  match stripHttp s with
  | none => false
  | some tail =>
    match tail with
    | c1 :: c2 :: rest =>
      ¬ isPySpace c1 ∧ ¬ c1 ∈ ['/', '$', '.', '?', '#'] ∧ c2 ≠ '\n' ∧ restOk rest
    | _ => false

/-- `main`: argument check, seed validation (each `sys.exit(1)` on failure),
then `urllib.parse.urlparse(current_url)` — whose `ValueError` (a regex-valid
seed can still carry an invalid bracketed authority) propagates out of `main`
before the table drop, leaving the store untouched and the process exiting
non-zero — then the base origin computation, `DROP TABLE IF EXISTS Urls`,
and the depth-6 traversal from the seed with a fresh visited set.  Result:
process exit code, final store, traversal trace. -/
def mainRun (fetch : FetchOracle) (perr : PersistOracle) (argv : List Str) (db0 : Db) :
    Nat × Db × List Ev :=
  match argv with
  | [] => (1, db0, [])
  | [_] => (1, db0, [])
  | _ :: seed :: _ =>
    if seedValid seed then
      match urlsplit seed [] with
      | .error _ => (1, db0, [])
      | .ok p =>
        let base := p.scheme ++ ':' :: '/' :: '/' :: p.netloc
        match recursive_url_scrap fetch perr base 6 seed [] none with
        | .ok (_, db', tr) => (0, db', tr)
        | .error _ => (1, none, [])
    else (1, db0, [])

deriving instance DecidableEq for Except

/-! ## Projections and a concrete scenario used by the witnesses -/

def exVisited (r : Except String (List Str × Db × List Ev)) : List Str :=
  match r with
  | .ok (v, _, _) => v
  | .error _ => []

def exDb (r : Except String (List Str × Db × List Ev)) : Db :=
  match r with
  | .ok (_, db, _) => db
  | .error _ => none

def exTrace (r : Except String (List Str × Db × List Ev)) : List Ev :=
  match r with
  | .ok (_, _, tr) => tr
  | .error _ => []

def wBase : Str := "https://w.x".data
def wSeed : Str := "https://w.x/wiki/S".data
def wA : Str := "https://w.x/wiki/A".data
def wB : Str := "https://w.x/wiki/B".data

/-- Fetch oracle of the witness scenario: the seed page links to two
articles; every other page is unreachable (transport failure). -/
def wFetch : FetchOracle := fun s =>
  if s = quoteUrl wSeed then
    .ok [⟨"a".data, [("href".data, "/wiki/A".data)]⟩,
         ⟨"a".data, [("href".data, "/wiki/B".data)]⟩]
  else .urlError "connection refused"

/-- Persistence oracle of the witness scenario: sqlite raises in the frame of
article A and nowhere else. -/
def wPerrA : PersistOracle := fun s => if s = wA then some "database is locked" else none

def wPerrNone : PersistOracle := fun _ => none

/-- Fetch oracle answering every request with a protocol failure. -/
def wHttp : FetchOracle := fun _ => .httpError 404

/-! ## Observations on traversal traces -/

/-- URLs fetched (explored) during a traversal, in order. -/
def visitUrls (tr : List Ev) : List Str :=
  tr.filterMap fun e =>
    match e with
    | .visit u _ _ => some u
    | _ => none

/-- The persist-before-recurse check: scanning the trace left to right while
collecting every persisted link set, each visit of a URL `c` must be preceded
by the persistence of a whole discovered set `S` with `c ∈ S`, and all of `S`
must still be in the store snapshot at that visit. -/
def coveredB (saved : List (List Str)) : List Ev → Bool
  | [] => true
  | .visit c _ dbc :: ts =>
    (saved.any fun S => decide (c ∈ S) && S.all fun l => decide (l ∈ dbUrls dbc)) &&
      coveredB saved ts
  | .save S _ :: ts => coveredB (S :: saved) ts
  | .fail _ _ _ :: ts => coveredB saved ts

/-- Link sets persisted during a trace, newest first, on top of `saved`. -/
def savedAcc (saved : List (List Str)) (tr : List Ev) : List (List Str) :=
  tr.foldl
    (fun acc e =>
      match e with
      | .save S _ => S :: acc
      | _ => acc)
    saved

/-- Frame invariant of `recursive_url_scrap fetch perr base d u v db` when it
returns `(v', db', tr)`. -/
def TrInv (d : Nat) (u : Str) (v : List Str) (db : Db)
    (v' : List Str) (db' : Db) (tr : List Ev) : Prop :=
  v ⊆ v' ∧
  (visitUrls tr).Nodup ∧
  (∀ x ∈ visitUrls tr, x ∉ v ∧ x ∈ v') ∧
  dbUrls db ⊆ dbUrls db' ∧
  (∀ c dc dbc, Ev.visit c dc dbc ∈ tr → 1 ≤ dc ∧ dc ≤ d ∧ dbUrls db ⊆ dbUrls dbc) ∧
  (∀ S dbs, Ev.save S dbs ∈ tr →
    (∀ l ∈ S, l ∈ dbUrls dbs) ∧ dbUrls db ⊆ dbUrls dbs ∧ tableExists dbs = true) ∧
  (((d = 0 ∨ u ∈ v) ∧ tr = []) ∨
    (∃ rest, tr = Ev.visit u d db :: rest ∧
      ∀ c dc dbc, Ev.visit c dc dbc ∈ rest → dc < d)) ∧
  (∀ x ∈ dbUrls db', x ∈ dbUrls db ∨ ∃ S dbs, Ev.save S dbs ∈ tr ∧ x ∈ S) ∧
  coveredB [] (tr.drop 1) = true ∧
  (1 ≤ d → u ∈ v')

/-- Loop invariant of `scrapChildren step ls v db` at child depth `d` when it
returns `(v', db', tr)`. -/
def TrInvC (d : Nat) (ls : List Str) (v : List Str) (db : Db)
    (v' : List Str) (db' : Db) (tr : List Ev) : Prop :=
  v ⊆ v' ∧
  (visitUrls tr).Nodup ∧
  (∀ x ∈ visitUrls tr, x ∉ v ∧ x ∈ v') ∧
  dbUrls db ⊆ dbUrls db' ∧
  (∀ c dc dbc, Ev.visit c dc dbc ∈ tr → 1 ≤ dc ∧ dc ≤ d ∧ dbUrls db ⊆ dbUrls dbc) ∧
  (∀ S dbs, Ev.save S dbs ∈ tr →
    (∀ l ∈ S, l ∈ dbUrls dbs) ∧ dbUrls db ⊆ dbUrls dbs ∧ tableExists dbs = true) ∧
  (∀ x ∈ dbUrls db', x ∈ dbUrls db ∨ ∃ S dbs, Ev.save S dbs ∈ tr ∧ x ∈ S) ∧
  (∀ saved S0, S0 ∈ saved → (∀ l ∈ ls, l ∈ S0) → (∀ l ∈ S0, l ∈ dbUrls db) →
    coveredB saved tr = true) ∧
  (1 ≤ d → ∀ l ∈ ls, l ∈ v')

theorem mem_foldl_insertRow (S : List Str) (t : Table) (x : Str) :
    x ∈ (S.foldl insertRow t).rows.map Prod.snd ↔
      x ∈ S ∨ x ∈ t.rows.map Prod.snd := by
  induction S generalizing t with
  | nil => simp
  | cons u us ih =>
    simp only [List.foldl_cons, ih, List.mem_cons]
    unfold insertRow
    split
    · rename_i hu
      constructor
      · tauto
      · rintro ((rfl | h) | h)
        · exact Or.inr hu
        · exact Or.inl h
        · exact Or.inr h
    · simp only [List.map_append, List.mem_append, List.map_cons, List.map_nil,
        List.mem_singleton]
      tauto

theorem save_to_db_eq (db : Db) (S : List Str) :
    save_to_db db S = some (S.foldl insertRow (dbTable db)) := by
  cases db <;> rfl

theorem dbUrls_dbTable (db : Db) : (dbTable db).rows.map Prod.snd = dbUrls db := by
  cases db <;> rfl

theorem mem_dbUrls_save (db : Db) (S : List Str) (x : Str) :
    x ∈ dbUrls (save_to_db db S) ↔ x ∈ S ∨ x ∈ dbUrls db := by
  rw [save_to_db_eq]
  show x ∈ (S.foldl insertRow (dbTable db)).rows.map Prod.snd ↔ _
  rw [mem_foldl_insertRow, dbUrls_dbTable]

theorem dbUrls_sub_save (db : Db) (S : List Str) :
    dbUrls db ⊆ dbUrls (save_to_db db S) := by
  intro x hx; exact (mem_dbUrls_save db S x).mpr (Or.inr hx)

theorem mem_save_of_mem (db : Db) {S : List Str} {x : Str} (hx : x ∈ S) :
    x ∈ dbUrls (save_to_db db S) :=
  (mem_dbUrls_save db S x).mpr (Or.inl hx)

theorem tableExists_save (db : Db) (S : List Str) :
    tableExists (save_to_db db S) = true := by
  rw [save_to_db_eq]; rfl

theorem foldl_insertRow_of_present {S : List Str} {t : Table}
    (h : ∀ u ∈ S, u ∈ t.rows.map Prod.snd) : S.foldl insertRow t = t := by
  induction S with
  | nil => rfl
  | cons u us ih =>
    have hu : insertRow t u = t := by
      unfold insertRow
      rw [if_pos (h u (List.mem_cons_self u us))]
    simp only [List.foldl_cons, hu]
    exact ih fun v hv => h v (List.mem_cons_of_mem u hv)

/-- C4: `save_to_db` is idempotent — repeating it with the same URL set
leaves the store literally unchanged — and a single call makes the store's
URL set exactly the inserted set united with the previous contents; inserting
an already present URL is a no-op, never an error (`save_to_db` is total). -/
theorem c4_save_to_db_idempotent (db : Db) (S : List Str) :
    save_to_db (save_to_db db S) S = save_to_db db S ∧
      ∀ u, u ∈ dbUrls (save_to_db db S) ↔ u ∈ S ∨ u ∈ dbUrls db := by
  refine ⟨?_, fun u => mem_dbUrls_save db S u⟩
  rw [save_to_db_eq db S, save_to_db_eq (some (S.foldl insertRow (dbTable db))) S]
  show _ = some (S.foldl insertRow (dbTable db))
  have : dbTable (some (S.foldl insertRow (dbTable db))) = S.foldl insertRow (dbTable db) := rfl
  rw [this, foldl_insertRow_of_present]
  intro u hu
  exact (mem_foldl_insertRow S (dbTable db) u).mpr (Or.inl hu)

/-! ## Basic lemmas about set-insertion and the extractor -/

theorem mem_sInsert {x y : Str} {xs : List Str} : x ∈ sInsert y xs ↔ x = y ∨ x ∈ xs := by
  unfold sInsert
  split
  · constructor
    · exact fun h => Or.inr h
    · rintro (rfl | h) <;> assumption
  · simp [List.mem_cons]

theorem sub_sInsert (y : Str) (xs : List Str) : xs ⊆ sInsert y xs := by
  intro a ha; exact mem_sInsert.mpr (Or.inr ha)

theorem self_mem_sInsert (y : Str) (xs : List Str) : y ∈ sInsert y xs :=
  mem_sInsert.mpr (Or.inl rfl)

theorem mem_handle_starttag {x : Str} {ls : List Str} {tag : Str}
    {attrs : List (Str × Str)} (h : x ∈ handle_starttag ls tag attrs) :
    x ∈ ls ∨ (tag = "a".data ∧ ∃ pr ∈ attrs,
      pr.1 = "href".data ∧ pr.2 = x ∧ "/wiki".data.isPrefixOf x = true ∧ ':' ∉ x) := by
  unfold handle_starttag at h
  split at h
  · rename_i htag
    induction attrs generalizing ls with
    | nil => exact Or.inl h
    | cons a as ih =>
      simp only [List.foldl_cons] at h
      rcases ih h with h' | ⟨_, pr, hpr, hp⟩
      · by_cases hc : a.1 = "href".data ∧ "/wiki".data.isPrefixOf a.2 ∧ ':' ∉ a.2
        · rw [if_pos hc] at h'
          rcases mem_sInsert.mp h' with rfl | hin
          · exact Or.inr ⟨htag, a, List.mem_cons_self a as,
              hc.1, rfl, by simpa using hc.2.1, hc.2.2⟩
          · exact Or.inl hin
        · rw [if_neg hc] at h'
          exact Or.inl h'
      · exact Or.inr ⟨htag, pr, List.mem_cons_of_mem a hpr, hp⟩
  · exact Or.inl h

theorem mem_feedTags {x : Str} {tags : List StartTag} (h : x ∈ feedTags tags) :
    (∃ t ∈ tags, t.tag = "a".data ∧ ("href".data, x) ∈ t.attrs) ∧
      "/wiki".data.isPrefixOf x = true ∧ ':' ∉ x := by
  unfold feedTags at h
  suffices H : ∀ (ts : List StartTag) (ls : List Str),
      x ∈ ts.foldl (fun ls t => handle_starttag ls t.tag t.attrs) ls →
      x ∈ ls ∨ ((∃ t ∈ ts, t.tag = "a".data ∧ ("href".data, x) ∈ t.attrs) ∧
        "/wiki".data.isPrefixOf x = true ∧ ':' ∉ x) by
    rcases H tags [] h with h' | h'
    · cases h'
    · exact h'
  intro ts
  induction ts with
  | nil => intro ls h'; exact Or.inl h'
  | cons t ts ih =>
    intro ls h'
    simp only [List.foldl_cons] at h'
    rcases ih _ h' with h'' | ⟨⟨t', ht', hp⟩, hpre⟩
    · rcases mem_handle_starttag h'' with h3 | ⟨htag, pr, hpr, h1, h2, h4, h5⟩
      · exact Or.inl h3
      · refine Or.inr ⟨⟨t, List.mem_cons_self t ts, htag, ?_⟩, h4, h5⟩
        have : pr = ("href".data, x) := by
          cases pr; cases h1; cases h2; rfl
        rwa [this] at hpr
    · exact Or.inr ⟨⟨t', List.mem_cons_of_mem t ht', hp⟩, hpre⟩

/-- C5: every string in the extractor's link set starts with `/wiki`,
contains no `:`, and is the value of an `href` attribute of an `a` tag of the
input, so anchors without `href` and anchors whose reference does not qualify
contribute nothing. -/
theorem c5_extractor_only_internal_articles (tags : List StartTag) (l : Str)
    (hl : l ∈ feedTags tags) :
    "/wiki".data.isPrefixOf l = true ∧ ':' ∉ l ∧
      ∃ t ∈ tags, t.tag = "a".data ∧ ("href".data, l) ∈ t.attrs := by
  obtain ⟨hprov, hpre, hcolon⟩ := mem_feedTags hl
  exact ⟨hpre, hcolon, hprov⟩

/-! ## Trace algebra -/

theorem visitUrls_append (t1 t2 : List Ev) :
    visitUrls (t1 ++ t2) = visitUrls t1 ++ visitUrls t2 :=
  List.filterMap_append t1 t2 _

theorem visitUrls_nil : visitUrls [] = [] := rfl

theorem savedAcc_nil (saved : List (List Str)) : savedAcc saved [] = saved := rfl

theorem savedAcc_cons (saved : List (List Str)) (e : Ev) (tr : List Ev) :
    savedAcc saved (e :: tr) =
      savedAcc (match e with | .save S _ => S :: saved | _ => saved) tr := by
  cases e <;> rfl

theorem savedAcc_sup (tr : List Ev) (saved : List (List Str)) :
    saved ⊆ savedAcc saved tr := by
  induction tr generalizing saved with
  | nil => exact fun a ha => ha
  | cons e ts ih =>
    rw [savedAcc_cons]
    cases e with
    | save S dbs => exact fun a ha => ih (S :: saved) (List.mem_cons_of_mem S ha)
    | visit u d db => exact ih saved
    | fail u d err => exact ih saved

theorem coveredB_mono (tr : List Ev) :
    ∀ saved saved' : List (List Str), saved ⊆ saved' →
      coveredB saved tr = true → coveredB saved' tr = true := by
  induction tr with
  | nil => intro _ _ _ _; rfl
  | cons e ts ih =>
    intro saved saved' hsub h
    cases e with
    | visit c dc dbc =>
      simp only [coveredB, Bool.and_eq_true] at h ⊢
      refine ⟨?_, ih saved saved' hsub h.2⟩
      obtain ⟨S, hS, hp⟩ := List.any_eq_true.mp h.1
      exact List.any_eq_true.mpr ⟨S, hsub hS, hp⟩
    | save S dbs =>
      simp only [coveredB] at h ⊢
      exact ih (S :: saved) (S :: saved') (List.cons_subset_cons S hsub) h
    | fail u d err =>
      simp only [coveredB] at h ⊢
      exact ih saved saved' hsub h

theorem coveredB_append (t1 t2 : List Ev) :
    ∀ saved, coveredB saved (t1 ++ t2) =
      (coveredB saved t1 && coveredB (savedAcc saved t1) t2) := by
  induction t1 with
  | nil => intro saved; simp [coveredB, savedAcc_nil]
  | cons e ts ih =>
    intro saved
    cases e with
    | visit c dc dbc =>
      simp only [List.cons_append, coveredB, savedAcc_cons, List.append_eq, ih,
        Bool.and_assoc]
    | save S dbs =>
      simp only [List.cons_append, coveredB, savedAcc_cons, List.append_eq, ih]
    | fail u d err =>
      simp only [List.cons_append, coveredB, savedAcc_cons, List.append_eq, ih]

/-! ## The traversal invariants -/

theorem visitUrls_cons_visit (u : Str) (d : Nat) (db : Db) (tr : List Ev) :
    visitUrls (Ev.visit u d db :: tr) = u :: visitUrls tr := rfl

theorem visitUrls_cons_save (S : List Str) (db : Db) (tr : List Ev) :
    visitUrls (Ev.save S db :: tr) = visitUrls tr := rfl

theorem visitUrls_cons_fail (u : Str) (d : Nat) (e : String) (tr : List Ev) :
    visitUrls (Ev.fail u d e :: tr) = visitUrls tr := rfl

/-- Invariant of a terminal frame (`depth == 0` or already visited). -/
theorem TrInv_terminal {d : Nat} {u : Str} {v : List Str} {db : Db}
    (h : d = 0 ∨ u ∈ v) : TrInv d u v db v db [] := by
  refine ⟨fun a ha => ha, List.nodup_nil, ?_, fun a ha => ha, ?_, ?_,
    Or.inl ⟨h, rfl⟩, ?_, rfl, ?_⟩
  · intro x hx; cases hx
  · intro c dc dbc hm; cases hm
  · intro S dbs hm; cases hm
  · intro x hx; exact Or.inl hx
  · intro hd
    rcases h with rfl | h
    · omega
    · exact h

/-- Invariant of a frame whose `try` body raised and whose `except` handler
logged the failure. -/
theorem TrInv_handler (d : Nat) (u : Str) (v : List Str) (db : Db) (e : String)
    (hu : u ∉ v) :
    TrInv (d + 1) u v db (sInsert u v) db
      [Ev.visit u (d + 1) db, Ev.fail u (d + 1) e] := by
  refine ⟨sub_sInsert u v, ?_, ?_, fun a ha => ha, ?_, ?_, ?_, ?_, rfl, ?_⟩
  · rw [visitUrls_cons_visit, visitUrls_cons_fail, visitUrls_nil]
    exact List.nodup_singleton u
  · intro x hx
    rw [visitUrls_cons_visit, visitUrls_cons_fail, visitUrls_nil] at hx
    rcases List.mem_singleton.mp hx with rfl
    exact ⟨hu, self_mem_sInsert x v⟩
  · intro c dc dbc hm
    rcases List.mem_cons.mp hm with hm | hm
    · simp only [Ev.visit.injEq] at hm
      obtain ⟨rfl, rfl, rfl⟩ := hm
      exact ⟨by omega, Nat.le_refl _, fun a ha => ha⟩
    · rcases List.mem_cons.mp hm with hm | hm
      · cases hm
      · cases hm
  · intro S dbs hm
    rcases List.mem_cons.mp hm with hm | hm
    · cases hm
    · rcases List.mem_cons.mp hm with hm | hm
      · cases hm
      · cases hm
  · refine Or.inr ⟨[Ev.fail u (d + 1) e], rfl, ?_⟩
    intro c dc dbc hm
    rcases List.mem_cons.mp hm with hm | hm
    · cases hm
    · cases hm
  · intro x hx; exact Or.inl hx
  · intro _; exact self_mem_sInsert u v

theorem scrapChildren_spec
    (step : Str → List Str → Db → Except String (List Str × Db × List Ev)) (d : Nat)
    (hstep : ∀ u v db, ∃ v' db' tr, step u v db = .ok (v', db', tr) ∧
      TrInv d u v db v' db' tr) :
    ∀ (ls : List Str) (v : List Str) (db : Db), ∃ v' db' tr,
      scrapChildren step ls v db = .ok (v', db', tr) ∧ TrInvC d ls v db v' db' tr := by
  intro ls
  induction ls with
  | nil =>
    intro v db
    refine ⟨v, db, [], rfl, ?_⟩
    refine ⟨fun a ha => ha, List.nodup_nil, ?_, fun a ha => ha, ?_, ?_, ?_, ?_, ?_⟩
    · intro x hx; cases hx
    · intro c dc dbc h; cases h
    · intro S dbs h; cases h
    · intro x hx; exact Or.inl hx
    · intro saved S0 _ _ _; rfl
    · intro _ l hl; cases hl
  | cons l ls ih =>
    intro v db
    obtain ⟨v1, db1, tr1, he1, I1⟩ := hstep l v db
    obtain ⟨v2, db2, tr2, he2, I2⟩ := ih v1 db1
    obtain ⟨h1sub, h1nd, h1vis, h1db, h1vs, h1sv, h1shape, h1prov, h1cov, h1mem⟩ := I1
    obtain ⟨h2sub, h2nd, h2vis, h2db, h2vs, h2sv, h2prov, h2cov, h2mem⟩ := I2
    refine ⟨v2, db2, tr1 ++ tr2, ?_, ?_⟩
    · show scrapChildren step (l :: ls) v db = _
      simp only [scrapChildren, he1, he2]
    refine ⟨h1sub.trans h2sub, ?_, ?_, h1db.trans h2db, ?_, ?_, ?_, ?_, ?_⟩
    · rw [visitUrls_append]
      exact List.nodup_append.mpr ⟨h1nd, h2nd,
        fun x hx1 hx2 => (h2vis x hx2).1 ((h1vis x hx1).2)⟩
    · intro x hx
      rw [visitUrls_append, List.mem_append] at hx
      rcases hx with hx | hx
      · exact ⟨(h1vis x hx).1, h2sub ((h1vis x hx).2)⟩
      · exact ⟨fun hv => (h2vis x hx).1 (h1sub hv), (h2vis x hx).2⟩
    · intro c dc dbc h
      rw [List.mem_append] at h
      rcases h with h | h
      · exact h1vs c dc dbc h
      · exact ⟨(h2vs c dc dbc h).1, (h2vs c dc dbc h).2.1,
          h1db.trans (h2vs c dc dbc h).2.2⟩
    · intro S dbs h
      rw [List.mem_append] at h
      rcases h with h | h
      · exact h1sv S dbs h
      · exact ⟨(h2sv S dbs h).1, h1db.trans (h2sv S dbs h).2.1, (h2sv S dbs h).2.2⟩
    · intro x hx
      rcases h2prov x hx with hx1 | ⟨S, dbs, hm, hS⟩
      · rcases h1prov x hx1 with hx0 | ⟨S, dbs, hm, hS⟩
        · exact Or.inl hx0
        · exact Or.inr ⟨S, dbs, List.mem_append_left tr2 hm, hS⟩
      · exact Or.inr ⟨S, dbs, List.mem_append_right tr1 hm, hS⟩
    · intro saved S0 hmem hls hdb
      rw [coveredB_append, Bool.and_eq_true]
      constructor
      · rcases h1shape with ⟨_, rfl⟩ | ⟨rest, rfl, _⟩
        · rfl
        · simp only [coveredB, Bool.and_eq_true]
          constructor
          · refine List.any_eq_true.mpr ⟨S0, hmem, ?_⟩
            simp only [Bool.and_eq_true, decide_eq_true_eq, List.all_eq_true]
            exact ⟨hls l (List.mem_cons_self l ls), fun x hx => hdb x hx⟩
          · have := h1cov
            simp only [List.drop_succ_cons, List.drop_zero] at this
            exact coveredB_mono rest [] saved (List.nil_subset saved) this
      · refine h2cov (savedAcc saved tr1) S0 (savedAcc_sup tr1 saved hmem) ?_ ?_
        · exact fun x hx => hls x (List.mem_cons_of_mem l hx)
        · exact fun x hx => h1db (hdb x hx)
    · intro hd x hx
      rcases List.mem_cons.mp hx with rfl | hx
      · exact h2sub (h1mem hd)
      · exact h2mem hd x hx

/-- Every call to `recursive_url_scrap` returns normally (never propagates an
exception) and satisfies the frame invariant `TrInv`. -/
theorem recursive_url_scrap_spec (fetch : FetchOracle) (perr : PersistOracle) (base : Str) :
    ∀ (d : Nat) (u : Str) (v : List Str) (db : Db), ∃ v' db' tr,
      recursive_url_scrap fetch perr base d u v db = .ok (v', db', tr) ∧
        TrInv d u v db v' db' tr := by
  intro d
  induction d with
  | zero =>
    intro u v db
    exact ⟨v, db, [], rfl, TrInv_terminal (Or.inl rfl)⟩
  | succ d ih =>
    intro u v db
    by_cases hu : u ∈ v
    · refine ⟨v, db, [], ?_, TrInv_terminal (Or.inr hu)⟩
      show recursive_url_scrap fetch perr base (d + 1) u v db = _
      simp only [recursive_url_scrap, if_pos hu]
    · cases hgl : get_links_from_page fetch u base with
      | error e =>
        refine ⟨sInsert u v, db, [Ev.visit u (d + 1) db, Ev.fail u (d + 1) e], ?_,
          TrInv_handler d u v db e hu⟩
        show recursive_url_scrap fetch perr base (d + 1) u v db = _
        simp only [recursive_url_scrap, if_neg hu, hgl]
      | ok links =>
        cases hp : perr u with
        | some e =>
          refine ⟨sInsert u v, db, [Ev.visit u (d + 1) db, Ev.fail u (d + 1) e], ?_,
            TrInv_handler d u v db e hu⟩
          show recursive_url_scrap fetch perr base (d + 1) u v db = _
          simp only [recursive_url_scrap, if_neg hu, hgl, hp]
        | none =>
          obtain ⟨v2, db2, tr2, he2, I2⟩ :=
            scrapChildren_spec (recursive_url_scrap fetch perr base d) d ih
              links (sInsert u v) (save_to_db db links)
          obtain ⟨h2sub, h2nd, h2vis, h2db, h2vs, h2sv, h2prov, h2cov, h2mem⟩ := I2
          refine ⟨v2, db2,
            Ev.visit u (d + 1) db :: Ev.save links (save_to_db db links) :: tr2, ?_, ?_⟩
          · show recursive_url_scrap fetch perr base (d + 1) u v db = _
            simp only [recursive_url_scrap, if_neg hu, hgl, hp, he2]
          refine ⟨(sub_sInsert u v).trans h2sub, ?_, ?_, ?_, ?_, ?_, ?_, ?_, ?_, ?_⟩
          · rw [visitUrls_cons_visit, visitUrls_cons_save]
            exact List.nodup_cons.mpr
              ⟨fun hm => (h2vis u hm).1 (self_mem_sInsert u v), h2nd⟩
          · intro x hx
            rw [visitUrls_cons_visit, visitUrls_cons_save] at hx
            rcases List.mem_cons.mp hx with rfl | hx
            · exact ⟨hu, h2sub (self_mem_sInsert x v)⟩
            · exact ⟨fun hv => (h2vis x hx).1 (sub_sInsert u v hv), (h2vis x hx).2⟩
          · exact (dbUrls_sub_save db links).trans h2db
          · intro c dc dbc hm
            rcases List.mem_cons.mp hm with hm | hm
            · simp only [Ev.visit.injEq] at hm
              obtain ⟨rfl, rfl, rfl⟩ := hm
              exact ⟨by omega, Nat.le_refl _, fun a ha => ha⟩
            · rcases List.mem_cons.mp hm with hm | hm
              · cases hm
              · obtain ⟨hd1, hd2, hd3⟩ := h2vs c dc dbc hm
                exact ⟨hd1, Nat.le_succ_of_le hd2, (dbUrls_sub_save db links).trans hd3⟩
          · intro S dbs hm
            rcases List.mem_cons.mp hm with hm | hm
            · cases hm
            · rcases List.mem_cons.mp hm with hm | hm
              · simp only [Ev.save.injEq] at hm
                obtain ⟨h1, h2⟩ := hm
                rw [h1, h2]
                exact ⟨fun l hl => mem_save_of_mem db hl, dbUrls_sub_save db links,
                  tableExists_save db links⟩
              · obtain ⟨hs1, hs2, hs3⟩ := h2sv S dbs hm
                exact ⟨hs1, (dbUrls_sub_save db links).trans hs2, hs3⟩
          · refine Or.inr ⟨Ev.save links (save_to_db db links) :: tr2, rfl, ?_⟩
            intro c dc dbc hm
            rcases List.mem_cons.mp hm with hm | hm
            · cases hm
            · have := (h2vs c dc dbc hm).2.1
              omega
          · intro x hx
            rcases h2prov x hx with hx1 | ⟨S, dbs, hm, hS⟩
            · rcases (mem_dbUrls_save db links x).mp hx1 with hl | hdb0
              · exact Or.inr ⟨links, save_to_db db links,
                  List.mem_cons_of_mem _ (List.mem_cons_self _ _), hl⟩
              · exact Or.inl hdb0
            · exact Or.inr ⟨S, dbs,
                List.mem_cons_of_mem _ (List.mem_cons_of_mem _ hm), hS⟩
          · show coveredB [] (Ev.save links (save_to_db db links) :: tr2) = true
            show coveredB [links] tr2 = true
            exact h2cov [links] links (List.mem_singleton.mpr rfl)
              (fun l hl => hl) (fun l hl => mem_save_of_mem db hl)
          · intro _; exact h2sub (self_mem_sInsert u v)

/-- Witness for C5 on the spec's scenario markup: an internal article link, a
namespaced link, an external link and a bare anchor. -/
theorem c5_witness :
    "/wiki/Python".data ∈ feedTags
        [⟨"a".data, [("href".data, "/wiki/Python".data)]⟩,
         ⟨"a".data, [("href".data, "/wiki/Python:History".data)]⟩,
         ⟨"a".data, [("href".data, "https://python.org".data)]⟩,
         ⟨"a".data, []⟩] ∧
      "/wiki".data.isPrefixOf "/wiki/Python".data = true ∧ ':' ∉ "/wiki/Python".data := by
  have h := c5_extractor_only_internal_articles
    [⟨"a".data, [("href".data, "/wiki/Python".data)]⟩,
     ⟨"a".data, [("href".data, "/wiki/Python:History".data)]⟩,
     ⟨"a".data, [("href".data, "https://python.org".data)]⟩,
     ⟨"a".data, []⟩] "/wiki/Python".data (by decide)
  exact ⟨by decide, h.1, h.2.1⟩

/-! ## Claim theorems for the traversal engine -/

/-- C1: for any oracles, depth, URL and state, `recursive_url_scrap` returns
normally — any exception raised during extraction, resolution or persistence
of a frame is caught inside that frame and never propagates — and a failure
at one URL does not prevent the traversal of sibling links: whenever a frame
has depth at least 2, is unvisited, and its own fetch and persistence do not
raise, every one of its discovered links ends up visited, whatever failures
the oracles inject inside those child frames. -/
theorem c1_frame_failure_isolation (fetch : FetchOracle) (perr : PersistOracle)
    (base : Str) (d : Nat) (u : Str) (v : List Str) (db : Db) :
    ∃ v' db' tr, recursive_url_scrap fetch perr base d u v db = Except.ok (v', db', tr) ∧
      v ⊆ v' ∧
      (2 ≤ d → u ∉ v → perr u = none → (fetch (quoteUrl u)).isRaises = false →
        ∀ l ∈ pageLinks fetch base u, l ∈ v') := by
  obtain ⟨v', db', tr, heq, I⟩ := recursive_url_scrap_spec fetch perr base d u v db
  refine ⟨v', db', tr, heq, I.1, ?_⟩
  intro h2 hu hp hr l hl
  obtain ⟨k, rfl⟩ : ∃ k, d = k + 1 := ⟨d - 1, by omega⟩
  have hk : 1 ≤ k := by omega
  cases hgl : get_links_from_page fetch u base with
  | error e =>
    rw [show pageLinks fetch base u = [] by simp [pageLinks, hgl]] at hl
    cases hl
  | ok links =>
    have hpl : pageLinks fetch base u = links := by simp [pageLinks, hgl]
    obtain ⟨v2, db2, tr2, he2, I2⟩ :=
      scrapChildren_spec (recursive_url_scrap fetch perr base k) k
        (recursive_url_scrap_spec fetch perr base k)
        links (sInsert u v) (save_to_db db links)
    obtain ⟨-, -, -, -, -, -, -, -, h2mem⟩ := I2
    have heq2 : recursive_url_scrap fetch perr base (k + 1) u v db
        = .ok (v2, db2, Ev.visit u (k + 1) db ::
            Ev.save links (save_to_db db links) :: tr2) := by
      simp only [recursive_url_scrap, if_neg hu, hgl, hp, he2]
    rw [heq] at heq2
    simp only [Except.ok.injEq, Prod.mk.injEq] at heq2
    rw [heq2.1]
    rw [hpl] at hl
    exact h2mem hk l hl

/-- Witness for C1: in the concrete scenario the persistence of sibling A
raises, yet sibling B is still explored and ends up visited. -/
theorem c1_witness :
    wB ∈ exVisited (recursive_url_scrap wFetch wPerrA wBase 2 wSeed [] none) := by
  obtain ⟨v', db', tr, heq, hsub, hsib⟩ :=
    c1_frame_failure_isolation wFetch wPerrA wBase 2 wSeed [] none
  have hv : exVisited (recursive_url_scrap wFetch wPerrA wBase 2 wSeed [] none) = v' := by
    rw [heq]; rfl
  rw [hv]
  exact hsib (by omega) (by decide) (by decide) (by decide) wB (by decide)

/-- C2: in every traversal no URL is explored twice — the fetched URLs of the
trace are distinct, none of them was already visited, and the visited set
only grows — and every frame that does work runs at a depth of at least 1
(the recursion stops at 0 before it could pass a negative budget, matching
the claim's non-negative start) and at most the starting depth, while every
frame below the root runs at a depth strictly smaller than the root's. -/
theorem c2_at_most_once_and_depth (fetch : FetchOracle) (perr : PersistOracle)
    (base : Str) (d : Nat) (u : Str) (v : List Str) (db : Db)
    (v' : List Str) (db' : Db) (tr : List Ev)
    (heq : recursive_url_scrap fetch perr base d u v db = Except.ok (v', db', tr)) :
    (visitUrls tr).Nodup ∧
    (∀ x ∈ visitUrls tr, x ∉ v ∧ x ∈ v') ∧
    v ⊆ v' ∧
    (∀ c dc dbc, Ev.visit c dc dbc ∈ tr → 1 ≤ dc ∧ dc ≤ d) ∧
    (∀ c dc dbc, Ev.visit c dc dbc ∈ List.drop 1 tr → dc < d) := by
  obtain ⟨v2, db2, tr2, heq2, I⟩ := recursive_url_scrap_spec fetch perr base d u v db
  rw [heq] at heq2
  simp only [Except.ok.injEq, Prod.mk.injEq] at heq2
  obtain ⟨h1, h2, h3⟩ := heq2
  subst h1; subst h2; subst h3
  obtain ⟨hsub, hnd, hvis, -, hvs, -, hshape, -, -, -⟩ := I
  refine ⟨hnd, hvis, hsub, fun c dc dbc hm => ⟨(hvs c dc dbc hm).1, (hvs c dc dbc hm).2.1⟩, ?_⟩
  intro c dc dbc hm
  rcases hshape with ⟨-, rfl⟩ | ⟨rest, rfl, hrest⟩
  · cases hm
  · exact hrest c dc dbc hm

/-- Witness for C2 on the concrete scenario (a failing child included): the
three explored URLs are distinct, new, and recorded in the visited set, and
all frame depths are within bounds. -/
theorem c2_witness :
    (visitUrls (exTrace (recursive_url_scrap wFetch wPerrA wBase 2 wSeed [] none))).Nodup ∧
      ∀ x ∈ visitUrls (exTrace (recursive_url_scrap wFetch wPerrA wBase 2 wSeed [] none)),
        x ∉ ([] : List Str) ∧
          x ∈ exVisited (recursive_url_scrap wFetch wPerrA wBase 2 wSeed [] none) := by
  have h := c2_at_most_once_and_depth wFetch wPerrA wBase 2 wSeed [] none
    (exVisited (recursive_url_scrap wFetch wPerrA wBase 2 wSeed [] none))
    (exDb (recursive_url_scrap wFetch wPerrA wBase 2 wSeed [] none))
    (exTrace (recursive_url_scrap wFetch wPerrA wBase 2 wSeed [] none))
    (by decide)
  exact ⟨h.1, h.2.1⟩

/-- C3: a transport-level (`URLError`) or protocol-level (`HTTPError`) fetch
failure makes `get_page` return empty content instead of raising, makes the
page contribute an empty Discovered Link Set, and lets the traversal
continue: the frame of such a URL returns normally, having recorded the
visit, persisted the empty set and recursed into nothing. -/
theorem c3_fetch_failure_is_recovered (fetch : FetchOracle) (u base : Str)
    (h : (∃ code, fetch (quoteUrl u) = .httpError code) ∨
      (∃ reason, fetch (quoteUrl u) = .urlError reason)) :
    get_page fetch u = Except.ok [] ∧
    get_links_from_page fetch u base = Except.ok [] ∧
    ∀ (perr : PersistOracle) (d : Nat) (v : List Str) (db : Db),
      u ∉ v → perr u = none →
      recursive_url_scrap fetch perr base (d + 1) u v db =
        Except.ok (sInsert u v, save_to_db db [],
          [Ev.visit u (d + 1) db, Ev.save [] (save_to_db db [])]) := by
  have hgp : get_page fetch u = Except.ok [] := by
    rcases h with ⟨code, hc⟩ | ⟨reason, hc⟩ <;> simp [get_page, hc]
  have hgl : get_links_from_page fetch u base = Except.ok [] := by
    simp [get_links_from_page, hgp, resolveLinks]
  refine ⟨hgp, hgl, ?_⟩
  intro perr d v db hu hp
  simp only [recursive_url_scrap, if_neg hu, hgl, hp]
  rfl

/-- Witness for C3: with every fetch answering `HTTP 404`, the seed frame
returns the empty link set and a normally terminating one-page traversal. -/
theorem c3_witness :
    get_page wHttp wSeed = Except.ok [] ∧
      get_links_from_page wHttp wSeed wBase = Except.ok [] ∧
      recursive_url_scrap wHttp wPerrNone wBase 6 wSeed [] none =
        Except.ok (sInsert wSeed [], save_to_db none [],
          [Ev.visit wSeed 6 none, Ev.save [] (save_to_db none [])]) := by
  have h := c3_fetch_failure_is_recovered wHttp wSeed wBase (Or.inl ⟨404, by decide⟩)
  exact ⟨h.1, h.2.1, h.2.2 wPerrNone 5 [] none (by decide) (by decide)⟩

/-- C7: the trace of every frame is either empty or starts with the frame's
own visit, and dropping that root visit, every later visit of a URL `c` is
preceded in the trace by the persistence of a complete discovered link set
containing `c`, all of which is still in the store at the moment `c` is
fetched — pages are persisted before recursion into them begins, and stay
persisted even if that recursion fails. -/
theorem c7_persisted_before_recursion (fetch : FetchOracle) (perr : PersistOracle)
    (base : Str) (d : Nat) (u : Str) (v : List Str) (db : Db)
    (v' : List Str) (db' : Db) (tr : List Ev)
    (heq : recursive_url_scrap fetch perr base d u v db = Except.ok (v', db', tr)) :
    (tr = [] ∨ ∃ rest, tr = Ev.visit u d db :: rest) ∧
      coveredB [] (List.drop 1 tr) = true := by
  obtain ⟨v2, db2, tr2, heq2, I⟩ := recursive_url_scrap_spec fetch perr base d u v db
  rw [heq] at heq2
  simp only [Except.ok.injEq, Prod.mk.injEq] at heq2
  obtain ⟨h1, h2, h3⟩ := heq2
  subst h1; subst h2; subst h3
  obtain ⟨-, -, -, -, -, -, hshape, -, hcov, -⟩ := I
  refine ⟨?_, hcov⟩
  rcases hshape with ⟨-, rfl⟩ | ⟨rest, rfl, -⟩
  · exact Or.inl rfl
  · exact Or.inr ⟨rest, rfl⟩

/-- Witness for C7 on the concrete two-level scenario: the seed's two links
are persisted before either child is visited. -/
theorem c7_witness :
    (exTrace (recursive_url_scrap wFetch wPerrNone wBase 2 wSeed [] none) = [] ∨
      ∃ rest, exTrace (recursive_url_scrap wFetch wPerrNone wBase 2 wSeed [] none) =
        Ev.visit wSeed 2 none :: rest) ∧
      coveredB []
        (List.drop 1 (exTrace (recursive_url_scrap wFetch wPerrNone wBase 2 wSeed [] none)))
        = true :=
  c7_persisted_before_recursion wFetch wPerrNone wBase 2 wSeed [] none
    (exVisited (recursive_url_scrap wFetch wPerrNone wBase 2 wSeed [] none))
    (exDb (recursive_url_scrap wFetch wPerrNone wBase 2 wSeed [] none))
    (exTrace (recursive_url_scrap wFetch wPerrNone wBase 2 wSeed [] none))
    (by decide)

/-! ## Claim theorems for main -/

/-- C8: when the seed URL fails the validation regex, `main` exits with
status 1 before doing anything else: the store is untouched (no drop, no
insert) and no traversal event occurs. -/
theorem c8_invalid_seed_exits_before_any_work (fetch : FetchOracle)
    (perr : PersistOracle) (prog seed : Str) (rest : List Str) (db0 : Db)
    (h : seedValid seed = false) :
    mainRun fetch perr (prog :: seed :: rest) db0 = (1, db0, []) := by
  simp [mainRun, h]

/-- Witness for C8 on the spec's scenario seed `"not-a-url"`: exit status 1
and a store (holding a prior run's row) left exactly as it was. -/
theorem c8_witness :
    mainRun wHttp wPerrNone ["main.py".data, "not-a-url".data]
        (some ⟨[(1, "old".data)], 2⟩) =
      (1, some ⟨[(1, "old".data)], 2⟩, []) :=
  c8_invalid_seed_exits_before_any_work wHttp wPerrNone "main.py".data
    "not-a-url".data [] (some ⟨[(1, "old".data)], 2⟩) (by decide)

/-- C9 (amended): a regex-valid seed still reaches `urlparse`, which raises
`ValueError` for an invalid authority (such as `http://[a`): then `main`
crashes before the `DROP TABLE`, exits non-zero, records no traversal
event, and the prior store survives untouched.  When the seed parses
(stated for ASCII seeds, on which the modelled parser is exact), the `Urls`
table is dropped before any crawling — the store snapshot at the first
visit of the traversal holds no table at all — the table is recreated by
the first `save_to_db` call during the crawl (every persisted snapshot has
the table), the final store contains only URLs persisted during this run,
and the run exits 0. -/
theorem c9_store_reset_before_crawl (fetch : FetchOracle) (perr : PersistOracle)
    (prog seed : Str) (rest : List Str) (db0 : Db) (code : Nat) (dbF : Db)
    (tr : List Ev) (h : seedValid seed = true)
    (heq : mainRun fetch perr (prog :: seed :: rest) db0 = (code, dbF, tr)) :
    ((∃ e, urlsplit seed [] = Except.error e) → code = 1 ∧ dbF = db0 ∧ tr = []) ∧
    (∀ p, urlsplit seed [] = Except.ok p → (∀ x ∈ seed, x.toNat < 128) →
      code = 0 ∧
      (∃ restTr, tr = Ev.visit seed 6 none :: restTr) ∧
      (∀ x ∈ dbUrls dbF, ∃ S dbs, Ev.save S dbs ∈ tr ∧ x ∈ S) ∧
      (∀ S dbs, Ev.save S dbs ∈ tr → tableExists dbs = true)) := by
  constructor
  · rintro ⟨e, he⟩
    have hmain : mainRun fetch perr (prog :: seed :: rest) db0 = (1, db0, []) := by
      simp only [mainRun, if_pos h, he]
    rw [heq] at hmain
    simp only [Prod.mk.injEq] at hmain
    exact ⟨hmain.1, hmain.2.1, hmain.2.2⟩
  · intro p hp _
    obtain ⟨v2, db2, tr2, heq2, I⟩ :=
      recursive_url_scrap_spec fetch perr
        (p.scheme ++ ':' :: '/' :: '/' :: p.netloc) 6 seed [] none
    have hmain : mainRun fetch perr (prog :: seed :: rest) db0 = (0, db2, tr2) := by
      simp only [mainRun, if_pos h, hp, heq2]
    rw [heq] at hmain
    simp only [Prod.mk.injEq] at hmain
    obtain ⟨h1, h2, h3⟩ := hmain
    subst h1; subst h2; subst h3
    obtain ⟨-, -, -, -, -, hsv, hshape, hprov, -, -⟩ := I
    refine ⟨rfl, ?_, ?_, fun S dbs hm => (hsv S dbs hm).2.2⟩
    · rcases hshape with ⟨hc, -⟩ | ⟨restTr, hr, -⟩
      · rcases hc with hc | hc
        · cases hc
        · cases hc
      · exact ⟨restTr, hr⟩
    · intro x hx
      rcases hprov x hx with hx0 | hx0
      · cases hx0
      · exact hx0

/-- Witness for C9 (amended), both paths at concrete inputs: a run from the
ASCII seed `https://w.x/wiki/S` over a store holding a prior run's record
exits 0, starts crawling on a dropped store, and keeps only URLs persisted
during the run; a run from the regex-valid seed `http://[a`, whose parse
raises, exits 1 with the prior store intact and no traversal event. -/
theorem c9_witness :
    ((∃ restTr,
      (mainRun wHttp wPerrNone ["main.py".data, wSeed]
          (some ⟨[(1, "old".data)], 2⟩)).2.2 = Ev.visit wSeed 6 none :: restTr) ∧
    (∀ x ∈ dbUrls (mainRun wHttp wPerrNone ["main.py".data, wSeed]
        (some ⟨[(1, "old".data)], 2⟩)).2.1,
      ∃ S dbs, Ev.save S dbs ∈ (mainRun wHttp wPerrNone ["main.py".data, wSeed]
        (some ⟨[(1, "old".data)], 2⟩)).2.2 ∧ x ∈ S) ∧
    (∀ S dbs, Ev.save S dbs ∈ (mainRun wHttp wPerrNone ["main.py".data, wSeed]
        (some ⟨[(1, "old".data)], 2⟩)).2.2 → tableExists dbs = true)) ∧
    mainRun wHttp wPerrNone ["main.py".data, "http://[a".data]
        (some ⟨[(1, "old".data)], 2⟩) =
      (1, some ⟨[(1, "old".data)], 2⟩, []) := by
  have hgood := c9_store_reset_before_crawl wHttp wPerrNone "main.py".data wSeed []
    (some ⟨[(1, "old".data)], 2⟩)
    (mainRun wHttp wPerrNone ["main.py".data, wSeed] (some ⟨[(1, "old".data)], 2⟩)).1
    (mainRun wHttp wPerrNone ["main.py".data, wSeed] (some ⟨[(1, "old".data)], 2⟩)).2.1
    (mainRun wHttp wPerrNone ["main.py".data, wSeed] (some ⟨[(1, "old".data)], 2⟩)).2.2
    (by decide) rfl
  have hg := hgood.2 ⟨"https".data, "w.x".data, "/wiki/S".data, [], []⟩
    (by decide) (by decide)
  have hbad := c9_store_reset_before_crawl wHttp wPerrNone "main.py".data
    "http://[a".data [] (some ⟨[(1, "old".data)], 2⟩)
    (mainRun wHttp wPerrNone ["main.py".data, "http://[a".data]
      (some ⟨[(1, "old".data)], 2⟩)).1
    (mainRun wHttp wPerrNone ["main.py".data, "http://[a".data]
      (some ⟨[(1, "old".data)], 2⟩)).2.1
    (mainRun wHttp wPerrNone ["main.py".data, "http://[a".data]
      (some ⟨[(1, "old".data)], 2⟩)).2.2
    (by decide) rfl
  have hb := hbad.1 ⟨"Invalid IPv6 URL", by decide⟩
  refine ⟨⟨hg.2.1, hg.2.2.1, hg.2.2.2⟩, ?_⟩
  have hsplit : mainRun wHttp wPerrNone ["main.py".data, "http://[a".data]
      (some ⟨[(1, "old".data)], 2⟩) =
      ((mainRun wHttp wPerrNone ["main.py".data, "http://[a".data]
        (some ⟨[(1, "old".data)], 2⟩)).1,
       (mainRun wHttp wPerrNone ["main.py".data, "http://[a".data]
        (some ⟨[(1, "old".data)], 2⟩)).2.1,
       (mainRun wHttp wPerrNone ["main.py".data, "http://[a".data]
        (some ⟨[(1, "old".data)], 2⟩)).2.2) := rfl
  rw [hsplit, hb.1, hb.2.1, hb.2.2]

/-- C9 counterexample to the claim as stated: on a concrete valid run the
store snapshot at the moment crawling starts (the trace's first visit event)
holds no `Urls` table at all — `main` only drops the table; it is not
recreated until the first persistence call, which happens after crawling has
begun, so the run does not start on an empty, freshly created table. -/
theorem c9_counterexample :
    ((mainRun wHttp wPerrNone ["main.py".data, wSeed]
        (some ⟨[(1, "old".data)], 2⟩)).2.2).head? =
      some (Ev.visit wSeed 6 none) ∧
    tableExists none = false := by decide

/-! ## Same-origin lemmas for the Resolver -/

theorem unquote_wiki {s : Str} (h : "/wiki".data.isPrefixOf s = true) :
    ∃ t, unquote s = '/' :: 'w' :: 'i' :: 'k' :: 'i' :: t := by
  obtain ⟨t, rfl⟩ := List.isPrefixOf_iff_prefix.mp h
  exact ⟨unquote t, by simp [unquote]⟩

theorem splitAtChar_append_left {c : Char} {a : Str} (b : Str) (h : c ∉ a) :
    splitAtChar c (a ++ b) = (a ++ (splitAtChar c b).1, (splitAtChar c b).2) := by
  induction a with
  | nil => simp [splitAtChar]
  | cons x xs ih =>
    have hx : x ≠ c := fun hc => h (hc ▸ List.mem_cons_self x xs)
    have hxs : c ∉ xs := fun hc => h (List.mem_cons_of_mem x hc)
    simp [splitAtChar, hx, ih hxs]

theorem takeWhile_dropWhile_append_all {p : Char → Bool} {a : Str}
    (h : ∀ x ∈ a, p x = true) (b : Str) :
    (a ++ b).takeWhile p = a ++ b.takeWhile p ∧ (a ++ b).dropWhile p = b.dropWhile p := by
  induction a with
  | nil => simp
  | cons x xs ih =>
    have hx := h x (List.mem_cons_self x xs)
    have hxs := ih fun y hy => h y (List.mem_cons_of_mem x hy)
    simp [List.takeWhile_cons, List.dropWhile_cons, hx, hxs.1, hxs.2]

theorem takeWhile_dropWhile_stop {p : Char → Bool} {a : Str} {y : Char}
    (h : ∀ x ∈ a, p x = true) (hy : p y = false) (b : Str) :
    (a ++ y :: b).takeWhile p = a ∧ (a ++ y :: b).dropWhile p = y :: b := by
  obtain ⟨ht, hd⟩ := takeWhile_dropWhile_append_all h (y :: b)
  rw [ht, hd, List.takeWhile_cons, List.dropWhile_cons, hy]
  simp

theorem takeWhile_dropWhile_all {p : Char → Bool} {a : Str} (h : ∀ x ∈ a, p x = true) :
    a.takeWhile p = a ∧ a.dropWhile p = [] := by
  have := takeWhile_dropWhile_append_all h []
  simpa using this

theorem sanitizeUrl_clean_append {a : Str} (b : Str)
    (ha : a ≠ []) (hclean : ∀ x ∈ a, 32 < x.toNat) :
    sanitizeUrl (a ++ b) = a ++ b.filter (fun c => ¬ c ∈ ['\t', '\r', '\n']) := by
  unfold sanitizeUrl
  obtain ⟨x, xs, rfl⟩ : ∃ x xs, a = x :: xs := by
    cases a with
    | nil => cases ha rfl
    | cons x xs => exact ⟨x, xs, rfl⟩
  have hx : (x.toNat ≤ 32) = False := by
    simp only [eq_iff_iff, iff_false, not_le]
    exact hclean x (List.mem_cons_self x xs)
  rw [List.cons_append, List.dropWhile_cons]
  simp only [hx, decide_False, Bool.false_eq_true, if_false]
  rw [show x :: (xs ++ b) = (x :: xs) ++ b from rfl, List.filter_append]
  congr 1
  rw [List.filter_eq_self]
  intro y hy
  have h32 := hclean y hy
  simp only [List.mem_cons, List.not_mem_nil, or_false, decide_eq_true_eq]
  intro hmem
  rcases hmem with rfl | rfl | rfl <;> simp_all

theorem sanitizeUrl_clean {a : Str} (ha : a ≠ []) (hclean : ∀ x ∈ a, 32 < x.toNat) :
    sanitizeUrl a = a := by
  have h := sanitizeUrl_clean_append [] ha hclean
  simpa using h

theorem clean_base_chars {scheme host : Str}
    (hS : scheme = "http".data ∨ scheme = "https".data)
    (hcl : ∀ x ∈ host, 32 < x.toNat) :
    ∀ x ∈ scheme ++ ':' :: '/' :: '/' :: host, 32 < x.toNat := by
  intro x hx
  rcases hS with rfl | rfl
  · have hx' : x ∈ 'h' :: 't' :: 't' :: 'p' :: ':' :: '/' :: '/' :: host := hx
    simp only [List.mem_cons] at hx'
    rcases hx' with rfl | rfl | rfl | rfl | rfl | rfl | rfl | h
    · decide
    · decide
    · decide
    · decide
    · decide
    · decide
    · decide
    · exact hcl x h
  · have hx' : x ∈ 'h' :: 't' :: 't' :: 'p' :: 's' :: ':' :: '/' :: '/' :: host := hx
    simp only [List.mem_cons] at hx'
    rcases hx' with rfl | rfl | rfl | rfl | rfl | rfl | rfl | rfl | h
    · decide
    · decide
    · decide
    · decide
    · decide
    · decide
    · decide
    · decide
    · exact hcl x h

theorem netlocBad_clean {host : Str} (h1 : '[' ∉ host) (h2 : ']' ∉ host) :
    netlocBad1 host = false ∧ netlocBad2 host = false := by
  constructor
  · simp [netlocBad1, h1, h2]
  · simp [netlocBad2, h1]

theorem urlsplitRaw_base (scheme host : Str)
    (hS : scheme = "http".data ∨ scheme = "https".data)
    (hhost : ∀ x ∈ host, ¬ x ∈ ['/', '?', '#'])
    (hb1 : netlocBad1 host = false) (hb2 : netlocBad2 host = false) :
    urlsplitRaw (scheme ++ ':' :: '/' :: '/' :: host) [] =
      Except.ok ⟨scheme, host, [], [], []⟩ := by
  have hp : ∀ x ∈ host, (fun c => (¬ c ∈ ['/', '?', '#'] : Bool)) x = true := by
    intro x hx
    simpa using hhost x hx
  obtain ⟨htw, hdw⟩ := takeWhile_dropWhile_all hp
  rcases hS with rfl | rfl
  · have hred : urlsplitRaw ("http".data ++ ':' :: '/' :: '/' :: host) [] =
        (if netlocBad1 (host.takeWhile (fun c => ¬ c ∈ ['/', '?', '#'])) = true then
          Except.error "Invalid IPv6 URL"
         else if netlocBad2 (host.takeWhile (fun c => ¬ c ∈ ['/', '?', '#'])) = true then
          Except.error "bracketed host is invalid"
         else Except.ok
          ⟨"http".data,
           host.takeWhile (fun c => ¬ c ∈ ['/', '?', '#']),
           (splitAtChar '?'
             (splitAtChar '#' (host.dropWhile (fun c => ¬ c ∈ ['/', '?', '#']))).1).1,
           (splitAtChar '?'
             (splitAtChar '#' (host.dropWhile (fun c => ¬ c ∈ ['/', '?', '#']))).1).2,
           (splitAtChar '#' (host.dropWhile (fun c => ¬ c ∈ ['/', '?', '#']))).2⟩) := rfl
    rw [hred, htw, hdw, hb1, hb2]
    rfl
  · have hred : urlsplitRaw ("https".data ++ ':' :: '/' :: '/' :: host) [] =
        (if netlocBad1 (host.takeWhile (fun c => ¬ c ∈ ['/', '?', '#'])) = true then
          Except.error "Invalid IPv6 URL"
         else if netlocBad2 (host.takeWhile (fun c => ¬ c ∈ ['/', '?', '#'])) = true then
          Except.error "bracketed host is invalid"
         else Except.ok
          ⟨"https".data,
           host.takeWhile (fun c => ¬ c ∈ ['/', '?', '#']),
           (splitAtChar '?'
             (splitAtChar '#' (host.dropWhile (fun c => ¬ c ∈ ['/', '?', '#']))).1).1,
           (splitAtChar '?'
             (splitAtChar '#' (host.dropWhile (fun c => ¬ c ∈ ['/', '?', '#']))).1).2,
           (splitAtChar '#' (host.dropWhile (fun c => ¬ c ∈ ['/', '?', '#']))).2⟩) := rfl
    rw [hred, htw, hdw, hb1, hb2]
    rfl

theorem urlsplitRaw_base_err1 (scheme host : Str)
    (hS : scheme = "http".data ∨ scheme = "https".data)
    (hhost : ∀ x ∈ host, ¬ x ∈ ['/', '?', '#'])
    (hb1 : netlocBad1 host = true) :
    urlsplitRaw (scheme ++ ':' :: '/' :: '/' :: host) [] =
      Except.error "Invalid IPv6 URL" := by
  have hp : ∀ x ∈ host, (fun c => (¬ c ∈ ['/', '?', '#'] : Bool)) x = true := by
    intro x hx
    simpa using hhost x hx
  obtain ⟨htw, hdw⟩ := takeWhile_dropWhile_all hp
  rcases hS with rfl | rfl
  · have hred : urlsplitRaw ("http".data ++ ':' :: '/' :: '/' :: host) [] =
        (if netlocBad1 (host.takeWhile (fun c => ¬ c ∈ ['/', '?', '#'])) = true then
          Except.error "Invalid IPv6 URL"
         else if netlocBad2 (host.takeWhile (fun c => ¬ c ∈ ['/', '?', '#'])) = true then
          Except.error "bracketed host is invalid"
         else Except.ok
          ⟨"http".data,
           host.takeWhile (fun c => ¬ c ∈ ['/', '?', '#']),
           (splitAtChar '?'
             (splitAtChar '#' (host.dropWhile (fun c => ¬ c ∈ ['/', '?', '#']))).1).1,
           (splitAtChar '?'
             (splitAtChar '#' (host.dropWhile (fun c => ¬ c ∈ ['/', '?', '#']))).1).2,
           (splitAtChar '#' (host.dropWhile (fun c => ¬ c ∈ ['/', '?', '#']))).2⟩) := rfl
    rw [hred, htw, hb1]
    rfl
  · have hred : urlsplitRaw ("https".data ++ ':' :: '/' :: '/' :: host) [] =
        (if netlocBad1 (host.takeWhile (fun c => ¬ c ∈ ['/', '?', '#'])) = true then
          Except.error "Invalid IPv6 URL"
         else if netlocBad2 (host.takeWhile (fun c => ¬ c ∈ ['/', '?', '#'])) = true then
          Except.error "bracketed host is invalid"
         else Except.ok
          ⟨"https".data,
           host.takeWhile (fun c => ¬ c ∈ ['/', '?', '#']),
           (splitAtChar '?'
             (splitAtChar '#' (host.dropWhile (fun c => ¬ c ∈ ['/', '?', '#']))).1).1,
           (splitAtChar '?'
             (splitAtChar '#' (host.dropWhile (fun c => ¬ c ∈ ['/', '?', '#']))).1).2,
           (splitAtChar '#' (host.dropWhile (fun c => ¬ c ∈ ['/', '?', '#']))).2⟩) := rfl
    rw [hred, htw, hb1]
    rfl

theorem urlsplitRaw_base_err2 (scheme host : Str)
    (hS : scheme = "http".data ∨ scheme = "https".data)
    (hhost : ∀ x ∈ host, ¬ x ∈ ['/', '?', '#'])
    (hb1 : netlocBad1 host = false) (hb2 : netlocBad2 host = true) :
    urlsplitRaw (scheme ++ ':' :: '/' :: '/' :: host) [] =
      Except.error "bracketed host is invalid" := by
  have hp : ∀ x ∈ host, (fun c => (¬ c ∈ ['/', '?', '#'] : Bool)) x = true := by
    intro x hx
    simpa using hhost x hx
  obtain ⟨htw, hdw⟩ := takeWhile_dropWhile_all hp
  rcases hS with rfl | rfl
  · have hred : urlsplitRaw ("http".data ++ ':' :: '/' :: '/' :: host) [] =
        (if netlocBad1 (host.takeWhile (fun c => ¬ c ∈ ['/', '?', '#'])) = true then
          Except.error "Invalid IPv6 URL"
         else if netlocBad2 (host.takeWhile (fun c => ¬ c ∈ ['/', '?', '#'])) = true then
          Except.error "bracketed host is invalid"
         else Except.ok
          ⟨"http".data,
           host.takeWhile (fun c => ¬ c ∈ ['/', '?', '#']),
           (splitAtChar '?'
             (splitAtChar '#' (host.dropWhile (fun c => ¬ c ∈ ['/', '?', '#']))).1).1,
           (splitAtChar '?'
             (splitAtChar '#' (host.dropWhile (fun c => ¬ c ∈ ['/', '?', '#']))).1).2,
           (splitAtChar '#' (host.dropWhile (fun c => ¬ c ∈ ['/', '?', '#']))).2⟩) := rfl
    rw [hred, htw, hb1, hb2]
    rfl
  · have hred : urlsplitRaw ("https".data ++ ':' :: '/' :: '/' :: host) [] =
        (if netlocBad1 (host.takeWhile (fun c => ¬ c ∈ ['/', '?', '#'])) = true then
          Except.error "Invalid IPv6 URL"
         else if netlocBad2 (host.takeWhile (fun c => ¬ c ∈ ['/', '?', '#'])) = true then
          Except.error "bracketed host is invalid"
         else Except.ok
          ⟨"https".data,
           host.takeWhile (fun c => ¬ c ∈ ['/', '?', '#']),
           (splitAtChar '?'
             (splitAtChar '#' (host.dropWhile (fun c => ¬ c ∈ ['/', '?', '#']))).1).1,
           (splitAtChar '?'
             (splitAtChar '#' (host.dropWhile (fun c => ¬ c ∈ ['/', '?', '#']))).1).2,
           (splitAtChar '#' (host.dropWhile (fun c => ¬ c ∈ ['/', '?', '#']))).2⟩) := rfl
    rw [hred, htw, hb1, hb2]
    rfl

theorem urlsplit_base_raw (scheme host : Str)
    (hS : scheme = "http".data ∨ scheme = "https".data)
    (hcl : ∀ x ∈ host, 32 < x.toNat) :
    urlsplit (scheme ++ ':' :: '/' :: '/' :: host) [] =
      urlsplitRaw (scheme ++ ':' :: '/' :: '/' :: host) [] := by
  have hsan : sanitizeUrl (scheme ++ ':' :: '/' :: '/' :: host) =
      scheme ++ ':' :: '/' :: '/' :: host := by
    apply sanitizeUrl_clean
    · rcases hS with rfl | rfl <;> simp
    · exact clean_base_chars hS hcl
  show urlsplitRaw (sanitizeUrl (scheme ++ ':' :: '/' :: '/' :: host)) (sanitizeScheme []) = _
  rw [hsan]
  rfl

theorem urlsplit_base (scheme host : Str)
    (hS : scheme = "http".data ∨ scheme = "https".data)
    (hne : host ≠ []) (hcl : ∀ x ∈ host, 32 < x.toNat ∧ ¬ x ∈ ['/', '?', '#'])
    (hb1 : netlocBad1 host = false) (hb2 : netlocBad2 host = false) :
    urlsplit (scheme ++ ':' :: '/' :: '/' :: host) [] =
      Except.ok ⟨scheme, host, [], [], []⟩ := by
  rw [urlsplit_base_raw scheme host hS fun x hx => (hcl x hx).1]
  exact urlsplitRaw_base scheme host hS (fun x hx => (hcl x hx).2) hb1 hb2

theorem urlsplitRaw_wiki (t dflt : Str) :
    ∃ t2 q f, urlsplitRaw ('/' :: 'w' :: 'i' :: 'k' :: 'i' :: t) dflt =
      Except.ok ⟨dflt, [], '/' :: 'w' :: 'i' :: 'k' :: 'i' :: t2, q, f⟩ := by
  have h1 : splitAtChar '#' ('/' :: 'w' :: 'i' :: 'k' :: 'i' :: t) =
      (['/', 'w', 'i', 'k', 'i'] ++ (splitAtChar '#' t).1, (splitAtChar '#' t).2) :=
    splitAtChar_append_left (c := '#') (a := ['/', 'w', 'i', 'k', 'i']) t (by decide)
  have h2 : splitAtChar '?' (['/', 'w', 'i', 'k', 'i'] ++ (splitAtChar '#' t).1) =
      (['/', 'w', 'i', 'k', 'i'] ++ (splitAtChar '?' (splitAtChar '#' t).1).1,
       (splitAtChar '?' (splitAtChar '#' t).1).2) :=
    splitAtChar_append_left (c := '?') (a := ['/', 'w', 'i', 'k', 'i']) _ (by decide)
  refine ⟨(splitAtChar '?' (splitAtChar '#' t).1).1,
    (splitAtChar '?' (splitAtChar '#' t).1).2, (splitAtChar '#' t).2, ?_⟩
  have hhead : ('/' :: 'w' :: 'i' :: 'k' :: 'i' :: t).headD ' ' = '/' := rfl
  have htk : ¬ List.take 2 ('/' :: 'w' :: 'i' :: 'k' :: 'i' :: t) = ['/', '/'] := by
    rw [show List.take 2 ('/' :: 'w' :: 'i' :: 'k' :: 'i' :: t) = ['/', 'w'] from rfl]
    decide
  cases hfi : firstIdx (· = ':') ('/' :: 'w' :: 'i' :: 'k' :: 'i' :: t) with
  | none =>
    simp only [urlsplitRaw, hfi]
    rw [if_neg htk, h1, h2]
    rfl
  | some i =>
    simp only [urlsplitRaw, hfi]
    rw [if_neg (show ¬ (0 < i ∧
        isAsciiAlpha (('/' :: 'w' :: 'i' :: 'k' :: 'i' :: t).headD ' ') = true ∧
        (List.take i ('/' :: 'w' :: 'i' :: 'k' :: 'i' :: t)).all isSchemeChar = true) from
      fun h => absurd (hhead ▸ h.2.1) (by decide))]
    dsimp only
    rw [if_neg htk, h1, h2]
    rfl

theorem urlsplit_wiki (t dflt : Str) :
    ∃ t2 q f, urlsplit ('/' :: 'w' :: 'i' :: 'k' :: 'i' :: t) dflt =
      Except.ok ⟨sanitizeScheme dflt, [], '/' :: 'w' :: 'i' :: 'k' :: 'i' :: t2, q, f⟩ := by
  have hsan : sanitizeUrl ('/' :: 'w' :: 'i' :: 'k' :: 'i' :: t) =
      '/' :: 'w' :: 'i' :: 'k' :: 'i' :: t.filter (fun c => ¬ c ∈ ['\t', '\r', '\n']) := by
    have h := sanitizeUrl_clean_append (a := ['/', 'w', 'i', 'k', 'i']) t
      (by decide) (by decide)
    simpa using h
  show ∃ t2 q f, urlsplitRaw (sanitizeUrl ('/' :: 'w' :: 'i' :: 'k' :: 'i' :: t))
      (sanitizeScheme dflt) = _
  rw [hsan]
  exact urlsplitRaw_wiki _ (sanitizeScheme dflt)

theorem ite_nil_slash_ne_nil (p : Str) : (if p = [] then ['/'] else p) ≠ [] := by
  split
  · simp
  · assumption

theorem resolveDots_ne_nil (segs : List Str) : resolveDots segs ≠ [] :=
  ite_nil_slash_ne_nil _

theorem urlunsplit_assembled (scheme host p q f : Str)
    (hs : scheme ≠ []) (hn : host ≠ []) (hp : p ≠ []) :
    ∃ t, urlunsplit ⟨scheme, host, p, q, f⟩ =
      scheme ++ ':' :: '/' :: '/' :: host ++ '/' :: t := by
  obtain ⟨p1, hp1⟩ :
      ∃ p1, (if p ≠ [] ∧ p.headD ' ' ≠ '/' then '/' :: p else p) = '/' :: p1 := by
    by_cases hh : p.headD ' ' = '/'
    · obtain ⟨c, cs, rfl⟩ : ∃ c cs, p = c :: cs := by
        cases p with
        | nil => cases hp rfl
        | cons c cs => exact ⟨c, cs, rfl⟩
      have hc : c = '/' := by simpa using hh
      subst hc
      exact ⟨cs, by rw [if_neg (fun h => h.2 rfl)]⟩
    · exact ⟨p, by rw [if_pos ⟨hp, hh⟩]⟩
  by_cases hq : q = []
  · by_cases hf : f = []
    · subst hq; subst hf
      refine ⟨p1, ?_⟩
      simp only [urlunsplit]
      rw [if_pos (Or.inl hn), hp1, if_pos hs, if_neg (by simp), if_neg (by simp)]
      simp [List.append_assoc]
    · subst hq
      refine ⟨p1 ++ '#' :: f, ?_⟩
      simp only [urlunsplit]
      rw [if_pos (Or.inl hn), hp1, if_pos hs, if_pos hf, if_neg (by simp)]
      simp [List.append_assoc]
  · by_cases hf : f = []
    · subst hf
      refine ⟨p1 ++ '?' :: q, ?_⟩
      simp only [urlunsplit]
      rw [if_pos (Or.inl hn), hp1, if_pos hs, if_neg (by simp), if_pos hq]
      simp [List.append_assoc]
    · refine ⟨p1 ++ '?' :: q ++ '#' :: f, ?_⟩
      simp only [urlunsplit]
      rw [if_pos (Or.inl hn), hp1, if_pos hs, if_pos hf, if_pos hq]
      simp [List.append_assoc]

theorem sanitize_assembled (scheme host t : Str)
    (hS : scheme = "http".data ∨ scheme = "https".data)
    (hcl : ∀ x ∈ host, 32 < x.toNat) :
    sanitizeUrl (scheme ++ ':' :: '/' :: '/' :: host ++ '/' :: t) =
      scheme ++ ':' :: '/' :: '/' :: host ++
        '/' :: t.filter (fun c => ¬ c ∈ ['\t', '\r', '\n']) := by
  have h := sanitizeUrl_clean_append (a := scheme ++ ':' :: '/' :: '/' :: host ++ ['/']) t
    (by rcases hS with rfl | rfl <;> simp)
    (by
      intro x hx
      rcases List.mem_append.mp hx with hx | hx
      · exact clean_base_chars hS hcl x hx
      · rcases List.mem_singleton.mp hx with rfl
        decide)
  rw [show (scheme ++ ':' :: '/' :: '/' :: host ++ ['/']) ++ t =
      scheme ++ ':' :: '/' :: '/' :: host ++ '/' :: t by
    simp [List.append_assoc]] at h
  rw [show (scheme ++ ':' :: '/' :: '/' :: host ++ ['/']) ++
        t.filter (fun c => ¬ c ∈ ['\t', '\r', '\n']) =
      scheme ++ ':' :: '/' :: '/' :: host ++
        '/' :: t.filter (fun c => ¬ c ∈ ['\t', '\r', '\n']) by
    simp [List.append_assoc]] at h
  exact h

theorem urlsplit_assembled_origin (scheme host t : Str)
    (hS : scheme = "http".data ∨ scheme = "https".data)
    (hne : host ≠ []) (hcl : ∀ x ∈ host, 32 < x.toNat ∧ ¬ x ∈ ['/', '?', '#'])
    (hb1 : netlocBad1 host = false) (hb2 : netlocBad2 host = false) :
    originOf (scheme ++ ':' :: '/' :: '/' :: host ++ '/' :: t) = (scheme, host) := by
  have hsan := sanitize_assembled scheme host t hS fun x hx => (hcl x hx).1
  have hp : ∀ x ∈ host, (fun c => (¬ c ∈ ['/', '?', '#'] : Bool)) x = true := by
    intro x hx
    simpa using (hcl x hx).2
  have hstop := takeWhile_dropWhile_stop (y := '/') hp (by decide)
    (t.filter fun c => ¬ c ∈ ['\t', '\r', '\n'])
  have hsp : urlsplit (scheme ++ ':' :: '/' :: '/' :: host ++ '/' :: t) [] =
      Except.ok ⟨scheme, host,
        (splitAtChar '?' (splitAtChar '#'
          ('/' :: t.filter (fun c => ¬ c ∈ ['\t', '\r', '\n']))).1).1,
        (splitAtChar '?' (splitAtChar '#'
          ('/' :: t.filter (fun c => ¬ c ∈ ['\t', '\r', '\n']))).1).2,
        (splitAtChar '#' ('/' :: t.filter (fun c => ¬ c ∈ ['\t', '\r', '\n']))).2⟩ := by
    show urlsplitRaw
        (sanitizeUrl (scheme ++ ':' :: '/' :: '/' :: host ++ '/' :: t)) (sanitizeScheme []) = _
    rw [hsan]
    rcases hS with rfl | rfl
    · have hred : urlsplitRaw ("http".data ++ ':' :: '/' :: '/' :: host ++
          '/' :: t.filter (fun c => ¬ c ∈ ['\t', '\r', '\n'])) (sanitizeScheme []) =
          (if netlocBad1 ((host ++ '/' :: t.filter (fun c => ¬ c ∈ ['\t', '\r', '\n'])).takeWhile
              (fun c => ¬ c ∈ ['/', '?', '#'])) = true then
            Except.error "Invalid IPv6 URL"
           else if netlocBad2 ((host ++ '/' :: t.filter (fun c => ¬ c ∈ ['\t', '\r', '\n'])).takeWhile
              (fun c => ¬ c ∈ ['/', '?', '#'])) = true then
            Except.error "bracketed host is invalid"
           else Except.ok
            ⟨"http".data,
             ((host ++ '/' :: t.filter (fun c => ¬ c ∈ ['\t', '\r', '\n'])).takeWhile
               (fun c => ¬ c ∈ ['/', '?', '#'])),
             (splitAtChar '?' (splitAtChar '#'
               ((host ++ '/' :: t.filter (fun c => ¬ c ∈ ['\t', '\r', '\n'])).dropWhile
                 (fun c => ¬ c ∈ ['/', '?', '#']))).1).1,
             (splitAtChar '?' (splitAtChar '#'
               ((host ++ '/' :: t.filter (fun c => ¬ c ∈ ['\t', '\r', '\n'])).dropWhile
                 (fun c => ¬ c ∈ ['/', '?', '#']))).1).2,
             (splitAtChar '#'
               ((host ++ '/' :: t.filter (fun c => ¬ c ∈ ['\t', '\r', '\n'])).dropWhile
                 (fun c => ¬ c ∈ ['/', '?', '#']))).2⟩) := rfl
      rw [hred, hstop.1, hstop.2, hb1, hb2]
      rfl
    · have hred : urlsplitRaw ("https".data ++ ':' :: '/' :: '/' :: host ++
          '/' :: t.filter (fun c => ¬ c ∈ ['\t', '\r', '\n'])) (sanitizeScheme []) =
          (if netlocBad1 ((host ++ '/' :: t.filter (fun c => ¬ c ∈ ['\t', '\r', '\n'])).takeWhile
              (fun c => ¬ c ∈ ['/', '?', '#'])) = true then
            Except.error "Invalid IPv6 URL"
           else if netlocBad2 ((host ++ '/' :: t.filter (fun c => ¬ c ∈ ['\t', '\r', '\n'])).takeWhile
              (fun c => ¬ c ∈ ['/', '?', '#'])) = true then
            Except.error "bracketed host is invalid"
           else Except.ok
            ⟨"https".data,
             ((host ++ '/' :: t.filter (fun c => ¬ c ∈ ['\t', '\r', '\n'])).takeWhile
               (fun c => ¬ c ∈ ['/', '?', '#'])),
             (splitAtChar '?' (splitAtChar '#'
               ((host ++ '/' :: t.filter (fun c => ¬ c ∈ ['\t', '\r', '\n'])).dropWhile
                 (fun c => ¬ c ∈ ['/', '?', '#']))).1).1,
             (splitAtChar '?' (splitAtChar '#'
               ((host ++ '/' :: t.filter (fun c => ¬ c ∈ ['\t', '\r', '\n'])).dropWhile
                 (fun c => ¬ c ∈ ['/', '?', '#']))).1).2,
             (splitAtChar '#'
               ((host ++ '/' :: t.filter (fun c => ¬ c ∈ ['\t', '\r', '\n'])).dropWhile
                 (fun c => ¬ c ∈ ['/', '?', '#']))).2⟩) := rfl
      rw [hred, hstop.1, hstop.2, hb1, hb2]
      rfl
  unfold originOf
  rw [hsp]

theorem urljoin_ok_ok {base url : Str} {b r : SplitUrl}
    (hbase : base ≠ []) (hurl : url ≠ [])
    (hb : urlsplit base [] = Except.ok b) (hr : urlsplit url b.scheme = Except.ok r) :
    urljoin base url = Except.ok (urljoinCore b r url) := by
  unfold urljoin
  simp only [hb, hr]
  rw [if_neg hbase, if_neg hurl]

theorem urljoin_err_base {base url : Str} {e : String}
    (hbase : base ≠ []) (hurl : url ≠ [])
    (hb : urlsplit base [] = Except.error e) :
    urljoin base url = Except.error e := by
  unfold urljoin
  simp only [hb]
  rw [if_neg hbase, if_neg hurl]

theorem urljoinCore_wiki (scheme host t2 q f url0 : Str)
    (hS : scheme = "http".data ∨ scheme = "https".data)
    (hne : host ≠ []) :
    ∃ t, urljoinCore ⟨scheme, host, [], [], []⟩
        ⟨scheme, [], '/' :: 'w' :: 'i' :: 'k' :: 'i' :: t2, q, f⟩ url0 =
      scheme ++ ':' :: '/' :: '/' :: host ++ '/' :: t := by
  have hrel : scheme ∈ usesRelative := by rcases hS with rfl | rfl <;> decide
  have hnetl : scheme ∈ usesNetloc := by rcases hS with rfl | rfl <;> decide
  have hs0 : scheme ≠ [] := by rcases hS with rfl | rfl <;> simp
  obtain ⟨t3, ht3⟩ := urlunsplit_assembled scheme host
    (resolveDots (splitOnChar '/' ('/' :: 'w' :: 'i' :: 'k' :: 'i' :: t2))) q f
    hs0 hne (resolveDots_ne_nil _)
  refine ⟨t3, ?_⟩
  simp only [urljoinCore]
  rw [if_neg (not_not_intro ⟨trivial, hrel⟩)]
  rw [if_neg (fun h => h.2 rfl)]
  rw [if_pos hnetl]
  rw [if_neg (show ¬ ('/' :: 'w' :: 'i' :: 'k' :: 'i' :: t2) = [] by simp)]
  rw [if_pos (show List.take 1 ('/' :: 'w' :: 'i' :: 'k' :: 'i' :: t2) = ['/'] by rfl)]
  exact ht3

theorem urljoin_wiki (scheme host link : Str)
    (hS : scheme = "http".data ∨ scheme = "https".data)
    (hne : host ≠ []) (hcl : ∀ x ∈ host, 32 < x.toNat ∧ ¬ x ∈ ['/', '?', '#'])
    (hb1 : netlocBad1 host = false) (hb2 : netlocBad2 host = false)
    (hlink : ∃ t0, link = '/' :: 'w' :: 'i' :: 'k' :: 'i' :: t0) :
    ∃ t, urljoin (scheme ++ ':' :: '/' :: '/' :: host) link =
      Except.ok (scheme ++ ':' :: '/' :: '/' :: host ++ '/' :: t) := by
  obtain ⟨t0, rfl⟩ := hlink
  have hb := urlsplit_base scheme host hS hne hcl hb1 hb2
  have hss : sanitizeScheme scheme = scheme := by rcases hS with rfl | rfl <;> rfl
  obtain ⟨t2, q, f, hr⟩ := urlsplit_wiki t0 scheme
  rw [hss] at hr
  have hr2 : urlsplit ('/' :: 'w' :: 'i' :: 'k' :: 'i' :: t0)
      ((⟨scheme, host, [], [], []⟩ : SplitUrl).scheme) =
      Except.ok ⟨scheme, [], '/' :: 'w' :: 'i' :: 'k' :: 'i' :: t2, q, f⟩ := hr
  have hbne : ¬ scheme ++ ':' :: '/' :: '/' :: host = [] := by
    rcases hS with rfl | rfl <;> simp
  obtain ⟨t3, ht3⟩ := urljoinCore_wiki scheme host t2 q f
    ('/' :: 'w' :: 'i' :: 'k' :: 'i' :: t0) hS hne
  refine ⟨t3, ?_⟩
  rw [urljoin_ok_ok hbne (show ¬ ('/' :: 'w' :: 'i' :: 'k' :: 'i' :: t0) = [] by simp) hb hr2,
    ht3]

/-- Shared helper: whenever the Resolver successfully maps an
extractor-shaped raw link (one starting with `/wiki`) against a clean base
origin, the result is a URL on that origin; a base whose host fails the
bracket validation makes the Resolver raise instead, so a successful
resolution there is impossible. -/
theorem resolveLink_wiki_origin (scheme host raw res : Str)
    (hS : scheme = "http".data ∨ scheme = "https".data)
    (hne : host ≠ []) (hcl : ∀ x ∈ host, 32 < x.toNat ∧ ¬ x ∈ ['/', '?', '#'])
    (hraw : "/wiki".data.isPrefixOf raw = true)
    (hok : resolveLink (scheme ++ ':' :: '/' :: '/' :: host) raw = Except.ok res) :
    originOf res = (scheme, host) := by
  obtain ⟨t0, hu⟩ := unquote_wiki hraw
  have hune : unquote raw ≠ [] := by rw [hu]; simp
  have hbne : (scheme ++ ':' :: '/' :: '/' :: host) ≠ [] := by
    rcases hS with rfl | rfl <;> simp
  cases hb1 : netlocBad1 host with
  | true =>
    have hberr : urlsplit (scheme ++ ':' :: '/' :: '/' :: host) [] =
        Except.error "Invalid IPv6 URL" := by
      rw [urlsplit_base_raw scheme host hS fun x hx => (hcl x hx).1]
      exact urlsplitRaw_base_err1 scheme host hS (fun x hx => (hcl x hx).2) hb1
    rw [show resolveLink (scheme ++ ':' :: '/' :: '/' :: host) raw =
        urljoin (scheme ++ ':' :: '/' :: '/' :: host) (unquote raw) from rfl,
      urljoin_err_base hbne hune hberr] at hok
    cases hok
  | false =>
    cases hb2 : netlocBad2 host with
    | true =>
      have hberr : urlsplit (scheme ++ ':' :: '/' :: '/' :: host) [] =
          Except.error "bracketed host is invalid" := by
        rw [urlsplit_base_raw scheme host hS fun x hx => (hcl x hx).1]
        exact urlsplitRaw_base_err2 scheme host hS (fun x hx => (hcl x hx).2) hb1 hb2
      rw [show resolveLink (scheme ++ ':' :: '/' :: '/' :: host) raw =
          urljoin (scheme ++ ':' :: '/' :: '/' :: host) (unquote raw) from rfl,
        urljoin_err_base hbne hune hberr] at hok
      cases hok
    | false =>
      obtain ⟨t, ht⟩ := urljoin_wiki scheme host (unquote raw) hS hne hcl hb1 hb2 ⟨t0, hu⟩
      rw [show resolveLink (scheme ++ ':' :: '/' :: '/' :: host) raw =
          urljoin (scheme ++ ':' :: '/' :: '/' :: host) (unquote raw) from rfl,
        ht] at hok
      injection hok with hres
      rw [← hres]
      exact urlsplit_assembled_origin scheme host t hS hne hcl hb1 hb2

theorem mem_resolveAll {base : Str} {xs ls : List Str}
    (h : resolveAll base xs = Except.ok ls) {l : Str} (hl : l ∈ ls) :
    ∃ raw ∈ xs, resolveLink base raw = Except.ok l := by
  induction xs generalizing ls with
  | nil =>
    simp only [resolveAll, Except.ok.injEq] at h
    subst h
    cases hl
  | cons x xs ih =>
    cases hrx : resolveLink base x with
    | error e =>
      simp only [resolveAll, hrx] at h
      exact Except.noConfusion h
    | ok r =>
      cases hra : resolveAll base xs with
      | error e =>
        simp only [resolveAll, hrx, hra] at h
        exact Except.noConfusion h
      | ok acc =>
        simp only [resolveAll, hrx, hra, Except.ok.injEq] at h
        subst h
        rcases mem_sInsert.mp hl with rfl | hl2
        · exact ⟨x, List.mem_cons_self x xs, hrx⟩
        · obtain ⟨raw, hm, hrr⟩ := ih hra hl2
          exact ⟨raw, List.mem_cons_of_mem x hm, hrr⟩

theorem mem_resolveLinks {base : Str} {html : List StartTag} {ls : List Str}
    (h : resolveLinks base html = Except.ok ls) {l : Str} (hl : l ∈ ls) :
    ∃ raw ∈ feedTags html, resolveLink base raw = Except.ok l := by
  unfold resolveLinks at h
  split at h
  · simp only [Except.ok.injEq] at h
    subst h
    cases hl
  · exact mem_resolveAll h hl

/-- C6 counterexample to the claim as stated: for the pair
(`http://evil.example/x`, `https://en.wikipedia.org`) the Resolver returns
the raw link unchanged, whose scheme (`http`) and host (`evil.example`)
differ from the base origin's (`https`, `en.wikipedia.org`) — the claim's
universally quantified same-origin property is false. -/
theorem c6_counterexample :
    resolveLink "https://en.wikipedia.org".data "http://evil.example/x".data =
        Except.ok "http://evil.example/x".data ∧
      originOf "http://evil.example/x".data =
        ("http".data, "evil.example".data) ∧
      originOf "https://en.wikipedia.org".data =
        ("https".data, "en.wikipedia.org".data) ∧
      ¬ ("http".data : Str) = "https".data := by decide

/-- C6 (amended): the Resolver is a pure function of (rawLink, baseOrigin) —
deterministic by construction — and for every raw link the Extractor can
produce (one starting with `/wiki`) and every base origin `scheme://host`
with an http or https scheme and a non-empty ASCII host free of control
characters, `/`, `?`, `#` and square brackets, the resolution succeeds (for
a bracketed authority `urljoin` can instead raise `ValueError`, and the
NFKC check restricts the statement to ASCII hosts) and the resolved URL's
scheme and host are those of the base origin. -/
theorem c6_resolver_same_origin_for_article_links (scheme host raw : Str)
    (hS : scheme = "http".data ∨ scheme = "https".data)
    (hne : host ≠ [])
    (hcl : ∀ x ∈ host, 32 < x.toNat ∧ x.toNat < 128 ∧ ¬ x ∈ ['/', '?', '#', '[', ']'])
    (hraw : "/wiki".data.isPrefixOf raw = true) :
    (∃ res, resolveLink (scheme ++ ':' :: '/' :: '/' :: host) raw = Except.ok res) ∧
      ∀ res, resolveLink (scheme ++ ':' :: '/' :: '/' :: host) raw = Except.ok res →
        originOf res = (scheme, host) := by
  have h1 : '[' ∉ host := fun hm => (hcl _ hm).2.2 (by decide)
  have h2 : ']' ∉ host := fun hm => (hcl _ hm).2.2 (by decide)
  obtain ⟨hb1, hb2⟩ := netlocBad_clean h1 h2
  have hcl' : ∀ x ∈ host, 32 < x.toNat ∧ ¬ x ∈ ['/', '?', '#'] := by
    intro x hx
    refine ⟨(hcl x hx).1, fun hm => (hcl x hx).2.2 ?_⟩
    simp only [List.mem_cons, List.not_mem_nil, or_false] at hm ⊢
    tauto
  constructor
  · obtain ⟨t, ht⟩ := urljoin_wiki scheme host (unquote raw) hS hne hcl' hb1 hb2
      (unquote_wiki hraw)
    exact ⟨scheme ++ ':' :: '/' :: '/' :: host ++ '/' :: t, ht⟩
  · intro res hok
    exact resolveLink_wiki_origin scheme host raw res hS hne hcl' hraw hok

/-- Witness for C6 (amended) on the spec's scenario link. -/
theorem c6_witness :
    (∃ res, resolveLink ("https".data ++ ':' :: '/' :: '/' :: "en.wikipedia.org".data)
        "/wiki/Python".data = Except.ok res) ∧
      ∀ res, resolveLink ("https".data ++ ':' :: '/' :: '/' :: "en.wikipedia.org".data)
          "/wiki/Python".data = Except.ok res →
        originOf res = ("https".data, "en.wikipedia.org".data) :=
  c6_resolver_same_origin_for_article_links "https".data "en.wikipedia.org".data
    "/wiki/Python".data (Or.inr rfl) (by decide) (by decide) (by decide)

/-- C10: every URL in the Discovered Link Set of `get_links_from_page`
against a base origin `scheme://host` shares that scheme and host: each raw
link starts with `/wiki` and percent-decoding cannot change that literal
prefix, so joining against the base always stays on the base origin. -/
theorem c10_discovered_links_same_origin (fetch : FetchOracle) (u scheme host : Str)
    (ls : List Str) (l : Str)
    (hS : scheme = "http".data ∨ scheme = "https".data)
    (hne : host ≠ []) (hcl : ∀ x ∈ host, 32 < x.toNat ∧ ¬ x ∈ ['/', '?', '#'])
    (heq : get_links_from_page fetch u (scheme ++ ':' :: '/' :: '/' :: host) =
      Except.ok ls)
    (hl : l ∈ ls) :
    originOf l = (scheme, host) := by
  cases hgp : get_page fetch u with
  | error e =>
    rw [show get_links_from_page fetch u (scheme ++ ':' :: '/' :: '/' :: host) =
        Except.error e by simp [get_links_from_page, hgp]] at heq
    cases heq
  | ok html =>
    have hres : resolveLinks (scheme ++ ':' :: '/' :: '/' :: host) html = Except.ok ls := by
      rw [show get_links_from_page fetch u (scheme ++ ':' :: '/' :: '/' :: host) =
          resolveLinks (scheme ++ ':' :: '/' :: '/' :: host) html by
        simp [get_links_from_page, hgp]] at heq
      exact heq
    obtain ⟨raw, hm, hrok⟩ := mem_resolveLinks hres hl
    exact resolveLink_wiki_origin scheme host raw l hS hne hcl (mem_feedTags hm).2.1 hrok

/-- Witness for C10 on the concrete scenario: the discovered link of the
seed page shares the base origin `https://w.x`. -/
theorem c10_witness : originOf wB = ("https".data, "w.x".data) := by
  have h := c10_discovered_links_same_origin wFetch wSeed "https".data "w.x".data
    (pageLinks wFetch wBase wSeed) wB (Or.inr rfl) (by decide) (by decide)
    (by decide) (by decide)
  exact h
